import Mathlib

/-!
# Verification of the 1Shot wallet SDK core

A shallow embedding, in Lean, of the core of the `@1shotapi/wallet` repository:

* the value codec `ObjectUtils.serialize` / `ObjectUtils.deserialize`
  (`src/unnamed/part_000`), including a model of the platform JSON layer
  (`JSON.parse`, and the key-sorted stringification provided by the
  `safe-stable-stringify` dependency);
* the x402 payment-retry orchestrator `OneShotPay.x402Fetch` and its helpers
  from `src/src/utils/x402Utils.ts`;
* the RPC bridge's pending-callback table (`OneShotPay.ts` / `WalletProxy.ts`)
  and the presentation-restore behaviour of `rpcCall`.

JavaScript values that can cross the codec are modelled by `JsValue`.  Numbers
are modelled as integers (no claim involves non-integer numbers, `NaN` or
infinities); object property maps are association lists in insertion order,
mirroring JS enumeration order for string keys.
-/

/-- A JavaScript value of the shapes handled by the value codec: the JSON
primitives, arrays and plain objects, plus the three special types the codec
supports (`Error`, `Map`, `Set`) and primitive `bigint`.  An `Error` is
modelled by its `name`, `message` and optional `stack`, the fields the codec
reads and writes. -/
inductive JsValue where
  | null : JsValue
  | bool (b : Bool) : JsValue
  | num (n : Int) : JsValue
  | str (s : String) : JsValue
  | arr (xs : List JsValue) : JsValue
  | obj (fields : List (String × JsValue)) : JsValue
  | jerror (name message : String) (stack : Option String) : JsValue
  | jmap (entries : List (JsValue × JsValue)) : JsValue
  | jset (members : List JsValue) : JsValue
  | bigint (i : Int) : JsValue
  deriving Repr

/-- Field lookup on a JS object: `v[k]`, yielding `none` (undefined) when the
receiver is not an object or lacks the key.  JS objects have unique keys; on a
model object with duplicates this takes the first, which never arises in the
claims. -/
def jsGet (v : JsValue) (k : String) : Option JsValue :=
  match v with
  | .obj fs => (fs.find? (fun kv => kv.1 = k)).map (·.2)
  | _ => none

/-- Truthiness of a modelled JS value, as used by `filter(Boolean)` and by
bare `if (x)` / `!x` tests in the source.  All objects, arrays and the special
types are truthy. -/
def jsTruthy (v : JsValue) : Bool :=
  match v with
  | .null => false
  | .bool b => b
  | .num n => n != 0
  | .str s => s ≠ ""
  | _ => true

/-- ASCII lower-casing of one character, modelling what `String.toLowerCase`
does on the ASCII range (the only range the compared addresses use). -/
def asciiLower (c : Char) : Char :=
  if 'A' ≤ c ∧ c ≤ 'Z' then Char.ofNat (c.toNat + 32) else c

/-- ASCII lower-casing of a string (model of `String.prototype.toLowerCase`
restricted to ASCII content). -/
def jsToLower (s : String) : String :=
  String.mk (s.data.map asciiLower)

/-- The character for a decimal digit (out-of-range inputs map to `'9'`; they
never occur). -/
def digitChar : Nat → Char
  | 0 => '0' | 1 => '1' | 2 => '2' | 3 => '3' | 4 => '4'
  | 5 => '5' | 6 => '6' | 7 => '7' | 8 => '8' | _ => '9'

/-- The character for a lower-case hexadecimal digit. -/
def hexDigitChar : Nat → Char
  | 0 => '0' | 1 => '1' | 2 => '2' | 3 => '3' | 4 => '4'
  | 5 => '5' | 6 => '6' | 7 => '7' | 8 => '8' | 9 => '9'
  | 10 => 'a' | 11 => 'b' | 12 => 'c' | 13 => 'd' | 14 => 'e' | _ => 'f'

/-- Decimal digits of a natural number, most significant first, by fuel-driven
structural recursion so that concrete evaluation reduces in the kernel.  The
fuel `n + 1` always suffices (`natToDecAux` divides by ten each step). -/
def natToDecAux : Nat → Nat → List Char
  | 0, _ => []
  | fuel + 1, n =>
    if n < 10 then [digitChar n]
    else natToDecAux fuel (n / 10) ++ [digitChar (n % 10)]

/-- Decimal representation of a natural number as characters. -/
def natToDec (n : Nat) : List Char :=
  natToDecAux (n + 1) n

/-- Decimal representation of an integer as characters, with a leading minus
sign for negatives — the format produced by `BigInt.prototype.toString` and by
`JSON.stringify` for integral numbers. -/
def intToDec (i : Int) : List Char :=
  if i < 0 then '-' :: natToDec i.natAbs else natToDec i.natAbs

/-- Decimal string of an integer. -/
def intToDecStr (i : Int) : String :=
  String.mk (intToDec i)

/-- Computable lexicographic comparison of character lists (the order
`Array.prototype.sort`'s default comparator induces on the ASCII keys the
codec meets). -/
def charListLe : List Char → List Char → Bool
  | [], _ => true
  | _ :: _, [] => false
  | a :: as, b :: bs =>
    if a < b then true
    else if b < a then false
    else charListLe as bs

/-- Computable lexicographic string comparison. -/
def strLe (a b : String) : Bool :=
  charListLe a.data b.data

/-- Insert a field into a list of fields sorted by key, keeping keys in
non-decreasing order.  Models one step of the deterministic key ordering that
`safe-stable-stringify` applies to every object it prints. -/
def insertField (p : String × JsValue) : List (String × JsValue) → List (String × JsValue)
  | [] => [p]
  | q :: qs => if strLe p.1 q.1 then p :: q :: qs else q :: insertField p qs

/-- Sort a list of object fields by key (insertion sort).

Modelled from the spec: the repository serializes through the external
`safe-stable-stringify` package, whose documented behaviour — and the reason
the source uses it ("a stable stringify method so that objects will always
generate the same hash") — is to emit every object's keys in a fixed sorted
order.  The package itself is a dependency, not repository source, so its key
ordering is modelled here as lexicographic sorting. -/
def sortFields : List (String × JsValue) → List (String × JsValue)
  | [] => []
  | p :: ps => insertField p (sortFields ps)

mutual

/-- Canonical form of a JS value: every plain object's fields are sorted by
key, recursively; nothing else changes.  Two values are "structurally equal
regardless of property insertion order" (the sense of spec §8) exactly when
their canonical forms are equal: JS object semantics ignores property order,
while `Map`/`Set`/array contents keep their element order. -/
def canon : JsValue → JsValue
  | .null => .null
  | .bool b => .bool b
  | .num n => .num n
  | .str s => .str s
  | .arr xs => .arr (canonList xs)
  | .obj fs => .obj (sortFields (canonFields fs))
  | .jerror n m st => .jerror n m st
  | .jmap es => .jmap (canonEntries es)
  | .jset ms => .jset (canonList ms)
  | .bigint i => .bigint i

/-- Canonical forms of a list of values. -/
def canonList : List JsValue → List JsValue
  | [] => []
  | x :: xs => canon x :: canonList xs

/-- Canonical forms of the values of a field list (keys untouched). -/
def canonFields : List (String × JsValue) → List (String × JsValue)
  | [] => []
  | (k, v) :: fs => (k, canon v) :: canonFields fs

/-- Canonical forms of the entries of a map. -/
def canonEntries : List (JsValue × JsValue) → List (JsValue × JsValue)
  | [] => []
  | (k, v) :: es => (canon k, canon v) :: canonEntries es

end

namespace ObjectUtils

mutual

/-- The value transform performed by `ObjectUtils.serialize`
(`src/unnamed/part_000`, lines 39–77): `stringify(obj, replacer)` walks the
value, passes each node through the replacer, and prints every object's keys
in sorted order.  This function produces the plain-JSON tree that is printed:

* an `Error` becomes `{dataType: "Error", value: {message, name, stack?}}`,
  with `name || "Error"` and `message || "Unknown error"` defaulting empty
  strings, and `stack: value.stack || undefined` dropping an absent or empty
  stack (a key whose value is `undefined` is omitted by `JSON.stringify`);
* a `Map` becomes `{dataType: "Map", value: [...entries]}` where each entry is
  a two-element array, and the replacer is applied again inside the entries;
* a `Set` becomes `{dataType: "Set", value: [...members]}` likewise;
* a primitive `bigint` takes the `typeof value == "bigint"` branch and becomes
  `{dataType: "bigint", value: BigInt(value).toString()}` — the preceding
  `value instanceof BigInt` branch (tag `"BigInt"`) never fires for a
  primitive bigint, since `instanceof` is false on primitives;
* everything else passes through, with plain objects' keys sorted.

Wrapper objects are built with their keys already in sorted order
(`"dataType" < "value"`, `"message" < "name" < "stack"`), which is the order
the sorted printing emits. -/
def serializeVal : JsValue → JsValue
  | .null => .null
  | .bool b => .bool b
  | .num n => .num n
  | .str s => .str s
  | .arr xs => .arr (serializeList xs)
  | .obj fs => .obj (sortFields (serializeFields fs))
  | .jerror n m st =>
      .obj [("dataType", .str "Error"),
            ("value", .obj ([("message", .str (if m = "" then "Unknown error" else m)),
                             ("name", .str (if n = "" then "Error" else n))] ++
                            (match st with
                             | none => []
                             | some s => if s = "" then [] else [("stack", .str s)])))]
  | .jmap es =>
      .obj [("dataType", .str "Map"),
            ("value", .arr (serializeEntries es))]
  | .jset ms =>
      .obj [("dataType", .str "Set"),
            ("value", .arr (serializeList ms))]
  | .bigint i =>
      .obj [("dataType", .str "bigint"),
            ("value", .str (intToDecStr i))]

/-- Replacer transform mapped over a list of values. -/
def serializeList : List JsValue → List JsValue
  | [] => []
  | x :: xs => serializeVal x :: serializeList xs

/-- Replacer transform mapped over the values of a field list. -/
def serializeFields : List (String × JsValue) → List (String × JsValue)
  | [] => []
  | (k, v) :: fs => (k, serializeVal v) :: serializeFields fs

/-- Replacer transform over map entries: `Array.from(value.entries())` turns
each entry into a two-element array, and the replacer is applied to the key
and value inside it as stringification recurses. -/
def serializeEntries : List (JsValue × JsValue) → List JsValue
  | [] => []
  | (k, v) :: es => .arr [serializeVal k, serializeVal v] :: serializeEntries es

end

end ObjectUtils

/-- JSON escape of one character, as `JSON.stringify` performs it: quote and
backslash are escaped, the five named control escapes are used where they
exist, any other control character becomes `\u00XX`, and every other
character is emitted verbatim. -/
def jsonEscapeChar (c : Char) : List Char :=
  if c = '"' then ['\\', '"']
  else if c = '\\' then ['\\', '\\']
  else if c = Char.ofNat 8 then ['\\', 'b']
  else if c = Char.ofNat 9 then ['\\', 't']
  else if c = Char.ofNat 10 then ['\\', 'n']
  else if c = Char.ofNat 12 then ['\\', 'f']
  else if c = Char.ofNat 13 then ['\\', 'r']
  else if c.toNat < 32 then
    ['\\', 'u', '0', '0', hexDigitChar (c.toNat / 16), hexDigitChar (c.toNat % 16)]
  else [c]

/-- JSON escape of a character list. -/
def jsonEscapeList : List Char → List Char
  | [] => []
  | c :: cs => jsonEscapeChar c ++ jsonEscapeList cs

/-- A JSON string literal: the escaped content between double quotes. -/
def jsonQuote (s : String) : List Char :=
  '"' :: (jsonEscapeList s.data ++ ['"'])

mutual

/-- Plain JSON printing of a value tree, as characters, modelling
`JSON.stringify`: no added whitespace, fields printed in list order (the
sorted order is already present in the trees `ObjectUtils.serializeVal`
produces; `OneShotPay.x402Fetch` prints its payload with plain
`JSON.stringify`, i.e. insertion order).  The special constructors never occur
in the trees this is applied to (they are eliminated by the replacer); they
are printed as `{}`, which is what `JSON.stringify` does to an `Error`, `Map`
or `Set` that reaches it without a replacer. -/
def stringifyJson : JsValue → List Char
  | .null => 'n' :: ['u', 'l', 'l']
  | .bool true => 't' :: ['r', 'u', 'e']
  | .bool false => 'f' :: ['a', 'l', 's', 'e']
  | .num n => intToDec n
  | .str s => jsonQuote s
  | .arr [] => ['[', ']']
  | .arr (x :: xs) => '[' :: (stringifyJson x ++ stringifyTail xs ++ [']'])
  | .obj [] => ['{', '}']
  | .obj (f :: fs) => '{' :: (stringifyField f ++ stringifyFieldTail fs ++ ['}'])
  | .jerror _ _ _ => ['{', '}']
  | .jmap _ => ['{', '}']
  | .jset _ => ['{', '}']
  | .bigint i => intToDec i

/-- Remaining array elements, each preceded by a comma. -/
def stringifyTail : List JsValue → List Char
  | [] => []
  | x :: xs => ',' :: (stringifyJson x ++ stringifyTail xs)

/-- One object field: quoted key, colon, value. -/
def stringifyField : String × JsValue → List Char
  | (k, v) => jsonQuote k ++ (':' :: stringifyJson v)

/-- Remaining object fields, each preceded by a comma. -/
def stringifyFieldTail : List (String × JsValue) → List Char
  | [] => []
  | f :: fs => ',' :: (stringifyField f ++ stringifyFieldTail fs)

end

/-- String form of the plain JSON printing. -/
def stringifyJsonStr (v : JsValue) : String :=
  String.mk (stringifyJson v)

namespace ObjectUtils

/-- The serializer `ObjectUtils.serialize` (`src/unnamed/part_000`, lines
39–77): the stable stringification of the replacer-transformed value. -/
def serialize (v : JsValue) : String :=
  stringifyJsonStr (serializeVal v)

end ObjectUtils

/-- JSON insignificant whitespace. -/
def jsonWs (c : Char) : Bool :=
  c = ' ' || c = '\t' || c = '\n' || c = '\r'

/-- Skip insignificant whitespace. -/
def skipWs : List Char → List Char
  | [] => []
  | c :: cs => if jsonWs c then skipWs cs else c :: cs

/-- Does the input begin with a decimal digit?  Used to state where a number
literal ends. -/
def headDigit : List Char → Bool
  | [] => false
  | c :: _ => c.isDigit

/-- Numeric value of a decimal digit character. -/
def digitVal (c : Char) : Nat :=
  c.toNat - 48

/-- Consume a run of decimal digits, folding them into an accumulator. -/
def parseDigitsAux : List Char → Nat → Nat × List Char
  | [], acc => (acc, [])
  | c :: cs, acc =>
    if c.isDigit then parseDigitsAux cs (acc * 10 + digitVal c) else (acc, c :: cs)

/-- Parse a non-empty run of decimal digits as a natural number. -/
def parseNatNum : List Char → Option (Nat × List Char)
  | [] => none
  | c :: cs => if c.isDigit then some (parseDigitsAux (c :: cs) 0) else none

/-- Value of a hexadecimal digit character, if it is one. -/
def hexVal (c : Char) : Option Nat :=
  if '0' ≤ c ∧ c ≤ '9' then some (c.toNat - 48)
  else if 'a' ≤ c ∧ c ≤ 'f' then some (c.toNat - 87)
  else if 'A' ≤ c ∧ c ≤ 'F' then some (c.toNat - 55)
  else none

/-- Parse the body of a JSON string literal after the opening quote, returning
the content characters and the input after the closing quote.  The named
escapes and `\uXXXX` are handled; a `\uXXXX` in the surrogate range is
rejected (the model's characters are Unicode scalars; the codec's printed
output never contains such an escape). -/
def parseStringBody : List Char → Option (List Char × List Char)
  | [] => none
  | '"' :: cs => some ([], cs)
  | '\\' :: cs =>
    match cs with
    | '"' :: cs' => (parseStringBody cs').map (fun r => ('"' :: r.1, r.2))
    | '\\' :: cs' => (parseStringBody cs').map (fun r => ('\\' :: r.1, r.2))
    | '/' :: cs' => (parseStringBody cs').map (fun r => ('/' :: r.1, r.2))
    | 'b' :: cs' => (parseStringBody cs').map (fun r => (Char.ofNat 8 :: r.1, r.2))
    | 'f' :: cs' => (parseStringBody cs').map (fun r => (Char.ofNat 12 :: r.1, r.2))
    | 'n' :: cs' => (parseStringBody cs').map (fun r => (Char.ofNat 10 :: r.1, r.2))
    | 'r' :: cs' => (parseStringBody cs').map (fun r => (Char.ofNat 13 :: r.1, r.2))
    | 't' :: cs' => (parseStringBody cs').map (fun r => (Char.ofNat 9 :: r.1, r.2))
    | 'u' :: h1 :: h2 :: h3 :: h4 :: cs' =>
      match hexVal h1, hexVal h2, hexVal h3, hexVal h4 with
      | some a, some b, some c, some d =>
        let code := ((a * 16 + b) * 16 + c) * 16 + d
        if 0xd800 ≤ code ∧ code ≤ 0xdfff then none
        else (parseStringBody cs').map (fun r => (Char.ofNat code :: r.1, r.2))
      | _, _, _, _ => none
    | _ => none
  | c :: cs => (parseStringBody cs).map (fun r => (c :: r.1, r.2))

mutual

/-- Fuel-driven JSON value grammar, modelling `JSON.parse` on the integral
fragment of JSON the repository exchanges (numbers are integer literals; the
model neither emits nor needs fractions or exponents).  Branch order differs
from no observable order in `JSON.parse`: the token classes are disjoint. -/
def parseValF : Nat → List Char → Option (JsValue × List Char)
  | 0, _ => none
  | fuel + 1, cs =>
    match skipWs cs with
    | [] => none
    | '"' :: cs' =>
      (parseStringBody cs').map (fun r => (.str (String.mk r.1), r.2))
    | '-' :: cs' =>
      (parseNatNum cs').map (fun r => (.num (-(r.1 : Int)), r.2))
    | '[' :: cs' =>
      (match skipWs cs' with
       | ']' :: rest => some (.arr [], rest)
       | cs'' =>
         match parseValF fuel cs'' with
         | none => none
         | some (x, r1) =>
           match parseArrTailF fuel r1 with
           | none => none
           | some (xs, r2) => some (.arr (x :: xs), r2))
    | '{' :: cs' =>
      (match skipWs cs' with
       | '}' :: rest => some (.obj [], rest)
       | cs'' =>
         match parseFieldF fuel cs'' with
         | none => none
         | some (f, r1) =>
           match parseObjTailF fuel r1 with
           | none => none
           | some (fs, r2) => some (.obj (f :: fs), r2))
    | 't' :: cs' =>
      (match cs' with
       | 'r' :: 'u' :: 'e' :: rest => some (.bool true, rest)
       | _ => none)
    | 'f' :: cs' =>
      (match cs' with
       | 'a' :: 'l' :: 's' :: 'e' :: rest => some (.bool false, rest)
       | _ => none)
    | 'n' :: cs' =>
      (match cs' with
       | 'u' :: 'l' :: 'l' :: rest => some (.null, rest)
       | _ => none)
    | c :: cs' =>
      if c.isDigit then
        (parseNatNum (c :: cs')).map (fun r => (.num (r.1 : Int), r.2))
      else none

/-- Elements of an array after the first: `,` separated, closed by `]`. -/
def parseArrTailF : Nat → List Char → Option (List JsValue × List Char)
  | 0, _ => none
  | fuel + 1, cs =>
    match skipWs cs with
    | ']' :: rest => some ([], rest)
    | ',' :: cs' =>
      match parseValF fuel cs' with
      | none => none
      | some (x, r1) =>
        match parseArrTailF fuel r1 with
        | none => none
        | some (xs, r2) => some (x :: xs, r2)
    | _ => none

/-- One object member: quoted key, `:`, value. -/
def parseFieldF : Nat → List Char → Option ((String × JsValue) × List Char)
  | 0, _ => none
  | fuel + 1, cs =>
    match skipWs cs with
    | '"' :: cs' =>
      match parseStringBody cs' with
      | none => none
      | some (k, r1) =>
        match skipWs r1 with
        | ':' :: r2 =>
          match parseValF fuel r2 with
          | none => none
          | some (v, r3) => some ((String.mk k, v), r3)
        | _ => none
    | _ => none

/-- Members of an object after the first: `,` separated, closed by `}`. -/
def parseObjTailF : Nat → List Char → Option (List (String × JsValue) × List Char)
  | 0, _ => none
  | fuel + 1, cs =>
    match skipWs cs with
    | '}' :: rest => some ([], rest)
    | ',' :: cs' =>
      match parseFieldF fuel cs' with
      | none => none
      | some (f, r1) =>
        match parseObjTailF fuel r1 with
        | none => none
        | some (fs, r2) => some (f :: fs, r2)
    | _ => none

end

/-- Model of `JSON.parse`: parse one JSON value, require only whitespace to
follow, and fail (a `SyntaxError` in the platform) otherwise.  The fuel
`length + 1` is ample for every input whose parse succeeds, since every unit
of fuel spent accompanies at least one consumed character. -/
def jsonParse (s : String) : Except String JsValue :=
  match parseValF (s.data.length + 1) s.data with
  | some (v, rest) =>
    if skipWs rest = [] then .ok v
    else .error "SyntaxError: unexpected character after JSON value"
  | none => .error "SyntaxError: unexpected token in JSON"

example : jsonParse "not json" = .error "SyntaxError: unexpected token in JSON" := rfl

example :
    jsonParse " [1, -20, \"a\\nb\", true, null, \x7b\"k\": []\x7d ]" =
      .ok (.arr [.num 1, .num (-20), .str "a\nb", .bool true, .null, .obj [("k", .arr [])]]) := rfl

example : ObjectUtils.serialize (.bigint (-7)) = String.mk (stringifyJson (.obj [("dataType", .str "bigint"), ("value", .str "-7")])) := rfl

mutual

/-- A value is plain JSON when it contains none of the codec's special
constructors; only such trees are printed and parsed by the JSON layer. -/
def plainJson : JsValue → Bool
  | .null => true
  | .bool _ => true
  | .num _ => true
  | .str _ => true
  | .arr xs => plainJsonList xs
  | .obj fs => plainJsonFields fs
  | .jerror _ _ _ => false
  | .jmap _ => false
  | .jset _ => false
  | .bigint _ => false

/-- Plainness of every element of a list. -/
def plainJsonList : List JsValue → Bool
  | [] => true
  | x :: xs => plainJson x && plainJsonList xs

/-- Plainness of every field value of a field list. -/
def plainJsonFields : List (String × JsValue) → Bool
  | [] => true
  | (_, v) :: fs => plainJson v && plainJsonFields fs

end

mutual

/-- Parse-fuel measure of a value: an upper bound on the fuel `parseValF`
spends reading this value back. -/
def jsize : JsValue → Nat
  | .null => 1
  | .bool _ => 1
  | .num _ => 1
  | .str _ => 1
  | .arr xs => 1 + jsizeL xs
  | .obj fs => 1 + jsizeF fs
  | .jerror _ _ _ => 1
  | .jmap _ => 1
  | .jset _ => 1
  | .bigint _ => 1

/-- Parse-fuel measure of an array's element list. -/
def jsizeL : List JsValue → Nat
  | [] => 0
  | x :: xs => 1 + jsize x + jsizeL xs

/-- Parse-fuel measure of an object's field list. -/
def jsizeF : List (String × JsValue) → Nat
  | [] => 0
  | (_, v) :: fs => 2 + jsize v + jsizeF fs

end

theorem jsize_pos : ∀ t, 1 ≤ jsize t := by
  intro t; cases t <;> simp [jsize]

theorem digitChar_isDigit (m : Nat) : (digitChar m).isDigit = true := by
  rcases m with _|_|_|_|_|_|_|_|_|m <;> rfl

theorem digitVal_digitChar {m : Nat} (h : m < 10) : digitVal (digitChar m) = m := by
  interval_cases m <;> rfl

theorem hexVal_hexDigitChar {m : Nat} (h : m < 16) : hexVal (hexDigitChar m) = some m := by
  interval_cases m <;> rfl

theorem isDigit_toNat {c : Char} (h : c.isDigit = true) : 48 ≤ c.toNat ∧ c.toNat ≤ 57 := by
  unfold Char.isDigit at h
  simp at h
  exact ⟨h.1, h.2⟩

theorem isDigit_char_facts {c : Char} (h : c.isDigit = true) :
    jsonWs c = false ∧ c ≠ ']' ∧ c ≠ '}' := by
  obtain ⟨h1, h2⟩ := isDigit_toNat h
  refine ⟨?_, ?_, ?_⟩
  · unfold jsonWs
    have e1 : c ≠ ' ' := fun e => by subst e; exact absurd h1 (by decide)
    have e2 : c ≠ '\t' := fun e => by subst e; exact absurd h1 (by decide)
    have e3 : c ≠ '\n' := fun e => by subst e; exact absurd h1 (by decide)
    have e4 : c ≠ '\r' := fun e => by subst e; exact absurd h1 (by decide)
    simp [e1, e2, e3, e4]
  · exact fun e => by subst e; exact absurd h2 (by decide)
  · exact fun e => by subst e; exact absurd h2 (by decide)

theorem skipWs_not_ws {c : Char} (h : jsonWs c = false) (cs : List Char) :
    skipWs (c :: cs) = c :: cs := by
  simp [skipWs, h]

theorem natToDecAux_digits : ∀ fuel n c, c ∈ natToDecAux fuel n → c.isDigit = true := by
  intro fuel
  induction fuel with
  | zero => intro n c hc; simp [natToDecAux] at hc
  | succ f ih =>
    intro n c hc
    unfold natToDecAux at hc
    by_cases h : n < 10
    · simp [h] at hc; subst hc; exact digitChar_isDigit n
    · simp [h] at hc
      rcases hc with hc | hc
      · exact ih _ _ hc
      · subst hc; exact digitChar_isDigit (n % 10)

theorem natToDecAux_ne_nil (fuel n : Nat) : natToDecAux (fuel + 1) n ≠ [] := by
  unfold natToDecAux
  by_cases h : n < 10 <;> simp [h]

theorem parseDigitsAux_append :
    ∀ (ds : List Char), (∀ c ∈ ds, c.isDigit = true) → ∀ rest acc, headDigit rest = false →
      parseDigitsAux (ds ++ rest) acc =
        (List.foldl (fun a c => a * 10 + digitVal c) acc ds, rest) := by
  intro ds
  induction ds with
  | nil =>
    intro _ rest acc hr
    cases rest with
    | nil => simp [parseDigitsAux]
    | cons c cs =>
      simp [headDigit] at hr
      simp [parseDigitsAux, hr]
  | cons d ds ih =>
    intro hd rest acc hr
    have hdd : d.isDigit = true := hd d (by simp)
    simp only [List.cons_append, parseDigitsAux, hdd, if_true, List.foldl_cons]
    exact ih (fun c hc => hd c (by simp [hc])) rest _ hr

theorem foldl_natToDecAux :
    ∀ fuel n acc, n < fuel →
      List.foldl (fun a c => a * 10 + digitVal c) acc (natToDecAux fuel n) =
        acc * 10 ^ (natToDecAux fuel n).length + n := by
  intro fuel
  induction fuel with
  | zero => omega
  | succ f ih =>
    intro n acc hn
    unfold natToDecAux
    by_cases h : n < 10
    · simp [h, digitVal_digitChar h]
    · have hdiv : n / 10 < f := by
        have h1 : n / 10 < n := Nat.div_lt_self (by omega) (by omega)
        omega
      simp only [h, if_false, List.foldl_append, List.length_append, List.foldl_cons,
        List.foldl_nil, List.length_cons, List.length_nil]
      rw [ih (n / 10) acc hdiv]
      have hmod : digitVal (digitChar (n % 10)) = n % 10 :=
        digitVal_digitChar (Nat.mod_lt _ (by omega))
      rw [hmod]
      have : acc * 10 ^ ((natToDecAux f (n / 10)).length + 1) =
          acc * 10 ^ (natToDecAux f (n / 10)).length * 10 := by ring
      rw [this]
      have := Nat.div_add_mod n 10
      ring_nf
      omega

theorem parseNatNum_natToDec (n : Nat) (rest : List Char) (hr : headDigit rest = false) :
    parseNatNum (natToDec n ++ rest) = some (n, rest) := by
  unfold natToDec
  obtain ⟨c, cs, hcs⟩ : ∃ c cs, natToDecAux (n + 1) n = c :: cs := by
    cases h : natToDecAux (n + 1) n with
    | nil => exact absurd h (natToDecAux_ne_nil n n)
    | cons c cs => exact ⟨c, cs, rfl⟩
  rw [hcs]
  have hc : c.isDigit = true := natToDecAux_digits (n + 1) n c (by rw [hcs]; simp)
  have hall : ∀ d ∈ c :: cs, d.isDigit = true := by
    intro d hd
    exact natToDecAux_digits (n + 1) n d (by rw [hcs]; exact hd)
  simp only [List.cons_append, parseNatNum, hc, if_true]
  rw [show c :: (cs ++ rest) = (c :: cs) ++ rest from rfl]
  rw [parseDigitsAux_append (c :: cs) hall rest 0 hr]
  have := foldl_natToDecAux (n + 1) n 0 (by omega)
  rw [hcs] at this
  rw [this]
  simp

set_option maxHeartbeats 1600000 in
theorem parseStringBody_escape :
    ∀ (cs rest : List Char),
      parseStringBody (jsonEscapeList cs ++ '"' :: rest) = some (cs, rest) := by
  intro cs
  induction cs with
  | nil => intro rest; simp [jsonEscapeList, parseStringBody]
  | cons c cs ih =>
    intro rest
    simp only [jsonEscapeList, List.append_assoc]
    by_cases h1 : c = '"'
    · subst h1; simp [jsonEscapeChar, parseStringBody, ih]
    · by_cases h2 : c = '\\'
      · subst h2; simp [jsonEscapeChar, parseStringBody, ih]
      · by_cases h3 : c = Char.ofNat 8
        · subst h3; simp [jsonEscapeChar, parseStringBody, ih]
        · by_cases h4 : c = Char.ofNat 9
          · subst h4; simp [jsonEscapeChar, parseStringBody, ih]
          · by_cases h5 : c = Char.ofNat 10
            · subst h5; simp [jsonEscapeChar, parseStringBody, ih]
            · by_cases h6 : c = Char.ofNat 12
              · subst h6; simp [jsonEscapeChar, parseStringBody, ih]
              · by_cases h7 : c = Char.ofNat 13
                · subst h7; simp [jsonEscapeChar, parseStringBody, ih]
                · by_cases h8 : c.toNat < 32
                  · have hdiv : c.toNat / 16 < 16 := by omega
                    have hmod : c.toNat % 16 < 16 := by omega
                    have ha : hexVal (hexDigitChar (c.toNat / 16)) = some (c.toNat / 16) :=
                      hexVal_hexDigitChar hdiv
                    have hb : hexVal (hexDigitChar (c.toNat % 16)) = some (c.toNat % 16) :=
                      hexVal_hexDigitChar hmod
                    have hcode : ((0 * 16 + 0) * 16 + c.toNat / 16) * 16 + c.toNat % 16
                        = c.toNat := by omega
                    have hsur : ¬((55296 : Nat) ≤ c.toNat ∧ c.toNat ≤ 57343) := by omega
                    simp only [jsonEscapeChar, h1, h2, h3, h4, h5, h6, h7, h8,
                      if_false, if_true, List.cons_append, List.nil_append]
                    rw [parseStringBody.eq_def]
                    simp only [ha, hb]
                    simp only [show hexVal '0' = some 0 from rfl, hcode, hsur, if_false,
                      Char.ofNat_toNat, ih]
                    simp
                  · simp only [jsonEscapeChar, h1, h2, h3, h4, h5, h6, h7, h8,
                      if_false, List.cons_append, List.nil_append]
                    rw [parseStringBody.eq_def]
                    simp [h1, h2, ih]

theorem isDigit_not_lit {c : Char} (h : c.isDigit = true) :
    c ≠ '"' ∧ c ≠ '-' ∧ c ≠ '[' ∧ c ≠ '{' ∧ c ≠ 't' ∧ c ≠ 'f' ∧ c ≠ 'n' := by
  obtain ⟨h1, h2⟩ := isDigit_toNat h
  refine ⟨?_, ?_, ?_, ?_, ?_, ?_, ?_⟩ <;>
    exact fun e => by subst e; first
      | exact absurd h1 (by decide)
      | exact absurd h2 (by decide)

theorem headDigit_tailArr (xs : List JsValue) (rest : List Char) :
    headDigit (stringifyTail xs ++ ']' :: rest) = false := by
  cases xs <;> rfl

theorem headDigit_tailObj (fs : List (String × JsValue)) (rest : List Char) :
    headDigit (stringifyFieldTail fs ++ '}' :: rest) = false := by
  cases fs <;> rfl

theorem stringify_head (t : JsValue) :
    ∃ c cs, stringifyJson t = c :: cs ∧ jsonWs c = false ∧ c ≠ ']' ∧ c ≠ '}' := by
  cases t with
  | null =>
    refine ⟨'n', _, rfl, ?_, ?_, ?_⟩ <;> decide
  | bool b =>
    cases b with
    | true => refine ⟨'t', _, rfl, ?_, ?_, ?_⟩ <;> decide
    | false => refine ⟨'f', _, rfl, ?_, ?_, ?_⟩ <;> decide
  | num n =>
    by_cases hn : n < 0
    · exact ⟨'-', natToDec n.natAbs, by simp [stringifyJson, intToDec, hn], by decide,
        by decide, by decide⟩
    · obtain ⟨c, cs, hc⟩ : ∃ c cs, natToDec n.natAbs = c :: cs := by
        cases h : natToDec n.natAbs with
        | nil => exact absurd h (natToDecAux_ne_nil _ _)
        | cons c cs => exact ⟨c, cs, rfl⟩
      have hd : c.isDigit = true := natToDecAux_digits _ _ c (by
        show c ∈ natToDec n.natAbs
        rw [hc]; simp)
      obtain ⟨hws, hne1, hne2⟩ := isDigit_char_facts hd
      exact ⟨c, cs, by simp [stringifyJson, intToDec, hn, hc], hws, hne1, hne2⟩
  | str s =>
    refine ⟨'"', _, rfl, ?_, ?_, ?_⟩ <;> decide
  | arr xs =>
    cases xs with
    | nil => refine ⟨'[', _, rfl, ?_, ?_, ?_⟩ <;> decide
    | cons x xs => refine ⟨'[', _, rfl, ?_, ?_, ?_⟩ <;> decide
  | obj fs =>
    cases fs with
    | nil => refine ⟨'{', _, rfl, ?_, ?_, ?_⟩ <;> decide
    | cons f fs => refine ⟨'{', _, rfl, ?_, ?_, ?_⟩ <;> decide
  | jerror n m st =>
    refine ⟨'{', _, rfl, ?_, ?_, ?_⟩ <;> decide
  | jmap es =>
    refine ⟨'{', _, rfl, ?_, ?_, ?_⟩ <;> decide
  | jset ms =>
    refine ⟨'{', _, rfl, ?_, ?_, ?_⟩ <;> decide
  | bigint i =>
    by_cases hn : i < 0
    · exact ⟨'-', natToDec i.natAbs, by simp [stringifyJson, intToDec, hn], by decide,
        by decide, by decide⟩
    · obtain ⟨c, cs, hc⟩ : ∃ c cs, natToDec i.natAbs = c :: cs := by
        cases h : natToDec i.natAbs with
        | nil => exact absurd h (natToDecAux_ne_nil _ _)
        | cons c cs => exact ⟨c, cs, rfl⟩
      have hd : c.isDigit = true := natToDecAux_digits _ _ c (by
        show c ∈ natToDec i.natAbs
        rw [hc]; simp)
      obtain ⟨hws, hne1, hne2⟩ := isDigit_char_facts hd
      exact ⟨c, cs, by simp [stringifyJson, intToDec, hn, hc], hws, hne1, hne2⟩

set_option maxHeartbeats 1600000 in
theorem parseValF_digit (f : Nat) {c : Char} (hd : c.isDigit = true) (cs : List Char) :
    parseValF (f + 1) (c :: cs) =
      (parseNatNum (c :: cs)).map (fun r => (JsValue.num (r.1 : Int), r.2)) := by
  obtain ⟨hws, _, _⟩ := isDigit_char_facts hd
  obtain ⟨e1, e2, e3, e4, e5, e6, e7⟩ := isDigit_not_lit hd
  simp only [parseValF]
  rw [skipWs_not_ws hws]
  split
  · rename_i heq; exact absurd heq (by simp)
  · rename_i cs' heq
    injection heq with h1
    exact absurd h1 e1
  · rename_i cs' heq
    injection heq with h1
    exact absurd h1 e2
  · rename_i cs' heq
    injection heq with h1
    exact absurd h1 e3
  · rename_i cs' heq
    injection heq with h1
    exact absurd h1 e4
  · rename_i cs' heq
    injection heq with h1
    exact absurd h1 e5
  · rename_i cs' heq
    injection heq with h1
    exact absurd h1 e6
  · rename_i cs' heq
    injection heq with h1
    exact absurd h1 e7
  · rename_i c' cs' heq
    injection heq with h1 h2
    subst h1; subst h2
    simp [hd]

theorem parseValF_quote (f : Nat) (cs : List Char) :
    parseValF (f + 1) ('"' :: cs) =
      (parseStringBody cs).map (fun r => (JsValue.str (String.mk r.1), r.2)) := rfl

theorem parseValF_dash (f : Nat) (cs : List Char) :
    parseValF (f + 1) ('-' :: cs) =
      (parseNatNum cs).map (fun r => (JsValue.num (-(r.1 : Int)), r.2)) := rfl

theorem parseValF_lbrack (f : Nat) (cs : List Char) :
    parseValF (f + 1) ('[' :: cs) =
      (match skipWs cs with
       | ']' :: rest => some (.arr [], rest)
       | cs'' =>
         match parseValF f cs'' with
         | none => none
         | some (x, r1) =>
           match parseArrTailF f r1 with
           | none => none
           | some (xs, r2) => some (.arr (x :: xs), r2)) := rfl

theorem parseValF_lbrace (f : Nat) (cs : List Char) :
    parseValF (f + 1) ('{' :: cs) =
      (match skipWs cs with
       | '}' :: rest => some (.obj [], rest)
       | cs'' =>
         match parseFieldF f cs'' with
         | none => none
         | some (kv, r1) =>
           match parseObjTailF f r1 with
           | none => none
           | some (fs, r2) => some (.obj (kv :: fs), r2)) := rfl

theorem parseArrTailF_comma (f : Nat) (cs : List Char) :
    parseArrTailF (f + 1) (',' :: cs) =
      (match parseValF f cs with
       | none => none
       | some (x, r1) =>
         match parseArrTailF f r1 with
         | none => none
         | some (xs, r2) => some (x :: xs, r2)) := rfl

theorem parseObjTailF_comma (f : Nat) (cs : List Char) :
    parseObjTailF (f + 1) (',' :: cs) =
      (match parseFieldF f cs with
       | none => none
       | some (kv, r1) =>
         match parseObjTailF f r1 with
         | none => none
         | some (fs, r2) => some (kv :: fs, r2)) := rfl

theorem parseFieldF_quote (f : Nat) (cs : List Char) :
    parseFieldF (f + 1) ('"' :: cs) =
      (match parseStringBody cs with
       | none => none
       | some (k, r1) =>
         match skipWs r1 with
         | ':' :: r2 =>
           (match parseValF f r2 with
            | none => none
            | some (v, r3) => some ((String.mk k, v), r3))
         | _ => none) := rfl

set_option maxHeartbeats 3200000 in
mutual

theorem parse_print : ∀ (t : JsValue), plainJson t = true →
    ∀ (fuel : Nat) (rest : List Char), jsize t ≤ fuel → headDigit rest = false →
    parseValF fuel (stringifyJson t ++ rest) = some (t, rest)
  | .null, _, fuel, rest, hf, _ => by
    simp only [jsize] at hf
    obtain ⟨f, rfl⟩ : ∃ f, fuel = f + 1 := ⟨fuel - 1, by omega⟩
    rfl
  | .bool true, _, fuel, rest, hf, _ => by
    simp only [jsize] at hf
    obtain ⟨f, rfl⟩ : ∃ f, fuel = f + 1 := ⟨fuel - 1, by omega⟩
    rfl
  | .bool false, _, fuel, rest, hf, _ => by
    simp only [jsize] at hf
    obtain ⟨f, rfl⟩ : ∃ f, fuel = f + 1 := ⟨fuel - 1, by omega⟩
    rfl
  | .num n, _, fuel, rest, hf, hr => by
    simp only [jsize] at hf
    obtain ⟨f, rfl⟩ : ∃ f, fuel = f + 1 := ⟨fuel - 1, by omega⟩
    by_cases hn : n < 0
    · simp only [stringifyJson, intToDec, hn, if_true, List.cons_append]
      rw [parseValF_dash]
      rw [parseNatNum_natToDec n.natAbs rest hr]
      simp only [Option.map_some']
      have he : -((n.natAbs : Nat) : Int) = n := by omega
      rw [he]
    · obtain ⟨c, cs, hc⟩ : ∃ c cs, natToDec n.natAbs = c :: cs := by
        cases h : natToDec n.natAbs with
        | nil => exact absurd h (natToDecAux_ne_nil _ _)
        | cons c cs => exact ⟨c, cs, rfl⟩
      have hd : c.isDigit = true := natToDecAux_digits _ _ c (by
        show c ∈ natToDec n.natAbs
        rw [hc]; simp)
      simp only [stringifyJson, intToDec, hn, if_false]
      rw [hc, List.cons_append]
      rw [parseValF_digit f hd]
      rw [show (c :: (cs ++ rest)) = (c :: cs) ++ rest from rfl, ← hc]
      rw [parseNatNum_natToDec n.natAbs rest hr]
      simp only [Option.map_some']
      have he : ((n.natAbs : Nat) : Int) = n := by omega
      rw [he]
  | .str s, _, fuel, rest, hf, _ => by
    simp only [jsize] at hf
    obtain ⟨f, rfl⟩ : ∃ f, fuel = f + 1 := ⟨fuel - 1, by omega⟩
    simp only [stringifyJson, jsonQuote, List.cons_append, List.append_assoc,
      List.singleton_append, List.nil_append]
    rw [parseValF_quote]
    rw [parseStringBody_escape s.data rest]
    rfl
  | .arr [], _, fuel, rest, hf, _ => by
    simp only [jsize, jsizeL] at hf
    obtain ⟨f, rfl⟩ : ∃ f, fuel = f + 1 := ⟨fuel - 1, by omega⟩
    rfl
  | .arr (x :: xs), hp, fuel, rest, hf, hr => by
    simp only [plainJson, plainJsonList, Bool.and_eq_true] at hp
    simp only [jsize, jsizeL] at hf
    obtain ⟨f, rfl⟩ : ∃ f, fuel = f + 1 := ⟨fuel - 1, by omega⟩
    have hx := parse_print x hp.1 f (stringifyTail xs ++ ']' :: rest)
      (by have := jsize_pos x; omega) (headDigit_tailArr xs rest)
    have hxs := parse_arrTail xs hp.2 f rest (by omega) hr
    obtain ⟨c, cs, hc, hws, hne, _⟩ := stringify_head x
    simp only [stringifyJson, List.cons_append, List.append_assoc, List.nil_append]
    rw [parseValF_lbrack]
    have hskip : skipWs (stringifyJson x ++ (stringifyTail xs ++ ']' :: rest))
        = stringifyJson x ++ (stringifyTail xs ++ ']' :: rest) := by
      rw [hc, List.cons_append]
      exact skipWs_not_ws hws _
    rw [hskip]
    split
    · rename_i r heq
      rw [hc, List.cons_append] at heq
      injection heq with h1
      exact absurd h1 hne
    · simp only [hx, hxs]
  | .obj [], _, fuel, rest, hf, _ => by
    simp only [jsize, jsizeF] at hf
    obtain ⟨f, rfl⟩ : ∃ f, fuel = f + 1 := ⟨fuel - 1, by omega⟩
    rfl
  | .obj ((k, v) :: fs), hp, fuel, rest, hf, hr => by
    simp only [plainJson, plainJsonFields, Bool.and_eq_true] at hp
    simp only [jsize, jsizeF] at hf
    obtain ⟨f, rfl⟩ : ∃ f, fuel = f + 1 := ⟨fuel - 1, by omega⟩
    have hkv := parse_field (k, v) hp.1 f (stringifyFieldTail fs ++ '}' :: rest)
      (by have := jsize_pos v; simp only; omega) (headDigit_tailObj fs rest)
    have hfs := parse_objTail fs hp.2 f rest (by omega) hr
    simp only [stringifyJson, List.cons_append, List.append_assoc, List.nil_append]
    rw [parseValF_lbrace]
    have hskip : skipWs (stringifyField (k, v) ++ (stringifyFieldTail fs ++ '}' :: rest))
        = stringifyField (k, v) ++ (stringifyFieldTail fs ++ '}' :: rest) := by
      simp only [stringifyField, jsonQuote, List.cons_append, List.append_assoc]
      exact skipWs_not_ws (by decide) _
    rw [hskip]
    split
    · rename_i r heq
      simp only [stringifyField, jsonQuote, List.cons_append, List.append_assoc] at heq
      injection heq with h1
      exact absurd h1 (by decide)
    · simp only [hkv, hfs]
  | .jerror n m st, hp, fuel, rest, hf, hr => by
    exact absurd hp (by simp [plainJson])
  | .jmap es, hp, fuel, rest, hf, hr => by
    exact absurd hp (by simp [plainJson])
  | .jset ms, hp, fuel, rest, hf, hr => by
    exact absurd hp (by simp [plainJson])
  | .bigint i, hp, fuel, rest, hf, hr => by
    exact absurd hp (by simp [plainJson])

theorem parse_arrTail : ∀ (xs : List JsValue), plainJsonList xs = true →
    ∀ (fuel : Nat) (rest : List Char), jsizeL xs + 1 ≤ fuel → headDigit rest = false →
    parseArrTailF fuel (stringifyTail xs ++ ']' :: rest) = some (xs, rest)
  | [], _, fuel, rest, hf, _ => by
    simp only [jsizeL] at hf
    obtain ⟨f, rfl⟩ : ∃ f, fuel = f + 1 := ⟨fuel - 1, by omega⟩
    rfl
  | x :: xs, hp, fuel, rest, hf, hr => by
    simp only [plainJsonList, Bool.and_eq_true] at hp
    simp only [jsizeL] at hf
    obtain ⟨f, rfl⟩ : ∃ f, fuel = f + 1 := ⟨fuel - 1, by omega⟩
    have hx := parse_print x hp.1 f (stringifyTail xs ++ ']' :: rest)
      (by have := jsize_pos x; omega) (headDigit_tailArr xs rest)
    have hxs := parse_arrTail xs hp.2 f rest (by omega) hr
    simp only [stringifyTail, List.cons_append, List.append_assoc, List.nil_append]
    rw [parseArrTailF_comma]
    simp only [hx, hxs]

theorem parse_field : ∀ (kv : String × JsValue), plainJson kv.2 = true →
    ∀ (fuel : Nat) (rest : List Char), 1 + jsize kv.2 ≤ fuel → headDigit rest = false →
    parseFieldF fuel (stringifyField kv ++ rest) = some (kv, rest)
  | (k, v), hp, fuel, rest, hf, hr => by
    simp only at hp hf
    obtain ⟨f, rfl⟩ : ∃ f, fuel = f + 1 := ⟨fuel - 1, by omega⟩
    have hv := parse_print v hp f rest (by omega) hr
    simp only [stringifyField, jsonQuote, List.cons_append, List.append_assoc,
      List.singleton_append, List.nil_append]
    rw [parseFieldF_quote]
    rw [parseStringBody_escape k.data (':' :: (stringifyJson v ++ rest))]
    simp only [skipWs_not_ws (by decide : jsonWs ':' = false), hv]

theorem parse_objTail : ∀ (fs : List (String × JsValue)), plainJsonFields fs = true →
    ∀ (fuel : Nat) (rest : List Char), jsizeF fs + 1 ≤ fuel → headDigit rest = false →
    parseObjTailF fuel (stringifyFieldTail fs ++ '}' :: rest) = some (fs, rest)
  | [], _, fuel, rest, hf, _ => by
    simp only [jsizeF] at hf
    obtain ⟨f, rfl⟩ : ∃ f, fuel = f + 1 := ⟨fuel - 1, by omega⟩
    rfl
  | (k, v) :: fs, hp, fuel, rest, hf, hr => by
    simp only [plainJsonFields, Bool.and_eq_true] at hp
    simp only [jsizeF] at hf
    obtain ⟨f, rfl⟩ : ∃ f, fuel = f + 1 := ⟨fuel - 1, by omega⟩
    have hkv := parse_field (k, v) hp.1 f (stringifyFieldTail fs ++ '}' :: rest)
      (by have := jsize_pos v; simp only; omega) (headDigit_tailObj fs rest)
    have hfs := parse_objTail fs hp.2 f rest (by omega) hr
    simp only [stringifyFieldTail, List.cons_append, List.append_assoc, List.nil_append]
    rw [parseObjTailF_comma]
    simp only [hkv, hfs]

end

mutual

theorem jsize_le_len : ∀ t : JsValue, jsize t ≤ (stringifyJson t).length
  | .null => by simp [jsize, stringifyJson]
  | .bool true => by simp [jsize, stringifyJson]
  | .bool false => by simp [jsize, stringifyJson]
  | .num n => by
    have h : intToDec n ≠ [] := by
      unfold intToDec
      by_cases hn : n < 0 <;> simp [hn, natToDec]
      exact natToDecAux_ne_nil _ _
    have := List.length_pos.mpr h
    simpa [jsize, stringifyJson] using this
  | .str s => by simp [jsize, stringifyJson, jsonQuote]
  | .arr [] => by simp [jsize, jsizeL, stringifyJson]
  | .arr (x :: xs) => by
    have h1 := jsize_le_len x
    have h2 := jsizeL_le_len xs
    simp only [jsize, jsizeL, stringifyJson, List.length_cons, List.length_append]
    omega
  | .obj [] => by simp [jsize, jsizeF, stringifyJson]
  | .obj ((k, v) :: fs) => by
    have h1 := jsizeField_le k v
    have h2 := jsizeF_le_len fs
    simp only [jsize, jsizeF, stringifyJson, List.length_cons, List.length_append]
    simp only [jsizeF] at h2 ⊢
    omega
  | .jerror n m st => by simp [jsize, stringifyJson]
  | .jmap es => by simp [jsize, stringifyJson]
  | .jset ms => by simp [jsize, stringifyJson]
  | .bigint i => by
    have h : intToDec i ≠ [] := by
      unfold intToDec
      by_cases hn : i < 0 <;> simp [hn, natToDec]
      exact natToDecAux_ne_nil _ _
    have := List.length_pos.mpr h
    simpa [jsize, stringifyJson] using this

theorem jsizeL_le_len : ∀ xs : List JsValue, jsizeL xs ≤ (stringifyTail xs).length
  | [] => by simp [jsizeL, stringifyTail]
  | x :: xs => by
    have h1 := jsize_le_len x
    have h2 := jsizeL_le_len xs
    simp only [jsizeL, stringifyTail, List.length_cons, List.length_append]
    omega

theorem jsizeField_le : ∀ (k : String) (v : JsValue), 2 + jsize v ≤ (stringifyField (k, v)).length
  | k, v => by
    have h1 := jsize_le_len v
    simp only [stringifyField, jsonQuote, List.length_append, List.length_cons,
      List.cons_append, List.append_assoc]
    omega

theorem jsizeF_le_len : ∀ fs : List (String × JsValue), jsizeF fs ≤ (stringifyFieldTail fs).length
  | [] => by simp [jsizeF, stringifyFieldTail]
  | (k, v) :: fs => by
    have h1 := jsizeField_le k v
    have h2 := jsizeF_le_len fs
    simp only [jsizeF, stringifyFieldTail, List.length_cons, List.length_append]
    omega

end

/-- The platform JSON layer inverts itself: parsing the printed form of any
plain value yields that value back.  This is the `JSON.parse`/stringify
identity the codec's round trip rests on. -/
theorem jsonParse_stringify (t : JsValue) (hp : plainJson t = true) :
    jsonParse (stringifyJsonStr t) = .ok t := by
  have hsz : jsize t ≤ (stringifyJson t).length + 1 := le_trans (jsize_le_len t) (by omega)
  have h := parse_print t hp ((stringifyJson t).length + 1) [] hsz rfl
  rw [List.append_nil] at h
  unfold jsonParse stringifyJsonStr
  rw [show (String.mk (stringifyJson t)).data = stringifyJson t from rfl]
  rw [h]
  rfl

/-- Reserved `dataType` tags recognised by the deserializer
(`src/unnamed/part_000`, lines 96–114). -/
def reservedTag (d : String) : Bool :=
  d = "Error" || d = "Map" || d = "Set" || d = "BigInt" || d = "bigint"

/-- The tagged-wrapper test of `processValue`: the value is an object with
both a `dataType` and a `value` property, and `dataType` is one of the five
reserved tag strings (a non-string `dataType`, or any other string, fails the
`===` comparisons and the object is processed generically). -/
def findTag (fs : List (String × JsValue)) : Option (String × JsValue) :=
  match jsGet (.obj fs) "dataType", jsGet (.obj fs) "value" with
  | some (.str d), some dv => if reservedTag d then some (d, dv) else none
  | _, _ => none

/-- Read a string property with a fallback, modelling
`errorData.name || "Error"` and `errorData.message || "Unknown error"`:
absent or empty-string fields give the default. -/
def errField (dv : JsValue) (k dflt : String) : String :=
  match jsGet dv k with
  | some (.str s) => if s = "" then dflt else s
  | _ => dflt

/-- Read the optional `stack` property: `if (errorData.stack)` assigns it only
when truthy. -/
def errStack (dv : JsValue) : Option String :=
  match jsGet dv "stack" with
  | some (.str s) => if s = "" then none else some s
  | _ => none

/-- One entry handed to the `Map` constructor: a two-or-more element array
gives its first two elements; a one-element array gives an undefined value
(modelled `null`).  Anything else makes the real constructor throw; the model
returns a dummy pair, which never arises on codec output. -/
def asEntryPair : JsValue → JsValue × JsValue
  | .arr (k :: v :: _) => (k, v)
  | .arr [k] => (k, .null)
  | _ => (.null, .null)

/-- The entries `new Map(dataValue)` is built from. -/
def mapEntriesOf : JsValue → List (JsValue × JsValue)
  | .arr es => es.map asEntryPair
  | _ => []

/-- The members `new Set(dataValue)` is built from. -/
def setMembersOf : JsValue → List JsValue
  | .arr ms => ms
  | _ => []

/-- The string handed to `BigInt(dataValue as string)` on codec output is
always a string; other shapes make the constructor throw and never arise. -/
def strOf : JsValue → String
  | .str s => s
  | _ => ""

/-- Fold decimal digit characters into a natural number. -/
def digitsToNat (ds : List Char) : Nat :=
  ds.foldl (fun a c => a * 10 + digitVal c) 0

/-- Decimal string to integer, as `BigInt(string)` evaluates the codec's
well-formed decimal output (an optional minus sign and digits). -/
def decToInt (s : String) : Int :=
  match s.data with
  | '-' :: ds => -((digitsToNat ds : Nat) : Int)
  | ds => ((digitsToNat ds : Nat) : Int)

namespace ObjectUtils

mutual

/-- The recursive pass `processValue` inside `ObjectUtils.deserialize`
(`src/unnamed/part_000`, lines 86–128):

* an object carrying a reserved `{dataType, value}` wrapper is rebuilt into
  the corresponding native value — and, exactly as in the source, the `Map`
  and `Set` branches hand `dataValue` straight to the constructor
  (`new Map(dataValue)`, `new Set(dataValue)`) **without** applying
  `processValue` to the entries, so nested tagged wrappers inside a `Map` or
  `Set` stay raw wrapper objects;
* any other object is rebuilt with every property value processed;
* an array is processed element-wise;
* every other value passes through. -/
def processValue : JsValue → JsValue
  | .obj fs =>
    match findTag fs with
    | some (d, dv) =>
      if d = "Error" then
        .jerror (errField dv "name" "Error") (errField dv "message" "Unknown error")
          (errStack dv)
      else if d = "Map" then .jmap (mapEntriesOf dv)
      else if d = "Set" then .jset (setMembersOf dv)
      else .bigint (decToInt (strOf dv))
    | none => .obj (processFields fs)
  | .arr xs => .arr (processList xs)
  | v => v

/-- Element-wise processing of an array. -/
def processList : List JsValue → List JsValue
  | [] => []
  | x :: xs => processValue x :: processList xs

/-- Property-wise processing of an object. -/
def processFields : List (String × JsValue) → List (String × JsValue)
  | [] => []
  | (k, v) :: fs => (k, processValue v) :: processFields fs

end

end ObjectUtils

/-- The typed error the deserializer is meant to fail with. -/
structure ValidationError where
  src : String
  deriving Repr, DecidableEq

/-- Outcome of calling a JS function that returns a typed-result value but may
also throw synchronously: either an exception escapes to the caller, or a
settled `Except` result is produced. -/
inductive JsOutcome (ε α : Type) where
  | thrown (msg : String)
  | result (r : Except ε α)
  deriving Repr

namespace ObjectUtils

/-- The deserializer `ObjectUtils.deserialize` (`src/unnamed/part_000`, lines
79–133).  The source builds
`ResultAsync.fromPromise(Promise.resolve(JSON.parse(json)), ValidationError.fromError)`:
JavaScript evaluates the argument `Promise.resolve(JSON.parse(json))` before
`fromPromise` is entered, so a `JSON.parse` failure throws synchronously out
of `deserialize` — the `ValidationError` mapping only guards rejections of
the already-constructed promise, which a synchronous throw never reaches.  On
a successful parse the `andThen` continuation always returns
`okAsync(processValue(parsed))`, so the settled result is always a success. -/
def deserialize (json : String) : JsOutcome ValidationError JsValue :=
  match jsonParse json with
  | .error e => .thrown e
  | .ok parsed => .result (.ok (processValue parsed))

end ObjectUtils

example :
    ObjectUtils.deserialize "not json" =
      .thrown "SyntaxError: unexpected token in JSON" := rfl

theorem canonList_eq_map : ∀ xs : List JsValue, canonList xs = xs.map canon
  | [] => rfl
  | x :: xs => by simp [canonList, canonList_eq_map xs]

theorem canonFields_eq_map :
    ∀ fs : List (String × JsValue), canonFields fs = fs.map (fun kv => (kv.1, canon kv.2))
  | [] => rfl
  | (k, v) :: fs => by simp [canonFields, canonFields_eq_map fs]

theorem canonEntries_eq_map :
    ∀ es : List (JsValue × JsValue), canonEntries es = es.map (fun kv => (canon kv.1, canon kv.2))
  | [] => rfl
  | (k, v) :: es => by simp [canonEntries, canonEntries_eq_map es]

namespace ObjectUtils

theorem serializeList_eq_map : ∀ xs : List JsValue, serializeList xs = xs.map serializeVal
  | [] => rfl
  | x :: xs => by simp [serializeList, serializeList_eq_map xs]

theorem serializeFields_eq_map :
    ∀ fs : List (String × JsValue),
      serializeFields fs = fs.map (fun kv => (kv.1, serializeVal kv.2))
  | [] => rfl
  | (k, v) :: fs => by simp [serializeFields, serializeFields_eq_map fs]

theorem serializeEntries_eq_map :
    ∀ es : List (JsValue × JsValue),
      serializeEntries es = es.map (fun kv => .arr [serializeVal kv.1, serializeVal kv.2])
  | [] => rfl
  | (k, v) :: es => by simp [serializeEntries, serializeEntries_eq_map es]

theorem processList_eq_map : ∀ xs : List JsValue, processList xs = xs.map processValue
  | [] => rfl
  | x :: xs => by simp [processList, processList_eq_map xs]

theorem processFields_eq_map :
    ∀ fs : List (String × JsValue),
      processFields fs = fs.map (fun kv => (kv.1, processValue kv.2))
  | [] => rfl
  | (k, v) :: fs => by simp [processFields, processFields_eq_map fs]

end ObjectUtils

theorem insertField_map_val (g : JsValue → JsValue) (p : String × JsValue) :
    ∀ l : List (String × JsValue),
      insertField (p.1, g p.2) (l.map (fun kv => (kv.1, g kv.2))) =
        (insertField p l).map (fun kv => (kv.1, g kv.2))
  | [] => rfl
  | q :: qs => by
    by_cases h : strLe p.1 q.1 = true
    · simp [insertField, h]
    · simp [insertField, h, insertField_map_val g p qs]

theorem sortFields_map_val (g : JsValue → JsValue) :
    ∀ l : List (String × JsValue),
      sortFields (l.map (fun kv => (kv.1, g kv.2))) =
        (sortFields l).map (fun kv => (kv.1, g kv.2))
  | [] => rfl
  | p :: ps => by
    simp only [List.map_cons, sortFields, sortFields_map_val g ps]
    exact insertField_map_val g p (sortFields ps)

theorem charListLe_total : ∀ as bs : List Char, charListLe as bs = false → charListLe bs as = true
  | [], bs, h => by simp [charListLe] at h
  | a :: as, [], _ => rfl
  | a :: as, b :: bs, h => by
    simp only [charListLe] at h ⊢
    by_cases h1 : a < b
    · simp [h1] at h
    · by_cases h2 : b < a
      · simp [h2]
      · simp only [h1, h2, if_false] at h ⊢
        exact charListLe_total as bs h

theorem charListLe_trans :
    ∀ as bs cs : List Char, charListLe as bs = true → charListLe bs cs = true →
      charListLe as cs = true
  | [], _, _, _, _ => rfl
  | a :: as, [], cs, h, _ => by simp [charListLe] at h
  | a :: as, b :: bs, [], _, h2 => by simp [charListLe] at h2
  | a :: as, b :: bs, c :: cs, h1, h2 => by
    simp only [charListLe] at h1 h2 ⊢
    rcases lt_trichotomy a b with hab | hab | hab
    · rcases lt_trichotomy b c with hbc | hbc | hbc
      · simp [lt_trans hab hbc]
      · subst hbc
        simp [hab]
      · rw [if_neg (lt_asymm hbc), if_pos hbc] at h2
        exact absurd h2 (by simp)
    · subst hab
      rw [if_neg (lt_irrefl a), if_neg (lt_irrefl a)] at h1
      rcases lt_trichotomy a c with hac | hac | hac
      · simp [hac]
      · subst hac
        rw [if_neg (lt_irrefl a), if_neg (lt_irrefl a)] at h2 ⊢
        exact charListLe_trans as bs cs h1 h2
      · rw [if_neg (lt_asymm hac), if_pos hac] at h2
        exact absurd h2 (by simp)
    · rw [if_neg (lt_asymm hab), if_pos hab] at h1
      exact absurd h1 (by simp)

theorem strLe_total {a b : String} (h : strLe a b = false) : strLe b a = true :=
  charListLe_total a.data b.data h

theorem strLe_trans {a b c : String} (h1 : strLe a b = true) (h2 : strLe b c = true) :
    strLe a c = true :=
  charListLe_trans a.data b.data c.data h1 h2

/-- Keys are pairwise in order. -/
def fieldsSorted (l : List (String × JsValue)) : Prop :=
  List.Pairwise (fun p q => strLe p.1 q.1 = true) l

theorem insertField_perm (p : String × JsValue) :
    ∀ l : List (String × JsValue), List.Perm (insertField p l) (p :: l)
  | [] => List.Perm.refl _
  | q :: qs => by
    by_cases h : strLe p.1 q.1 = true
    · simp [insertField, h]
    · simp only [insertField, h, if_false]
      exact ((insertField_perm p qs).cons q).trans (List.Perm.swap p q qs)

theorem insertField_sorted (p : String × JsValue) :
    ∀ l : List (String × JsValue), fieldsSorted l → fieldsSorted (insertField p l)
  | [], _ => List.pairwise_singleton _ _
  | q :: qs, h => by
    obtain ⟨hq, hqs⟩ := List.pairwise_cons.mp h
    by_cases hle : strLe p.1 q.1 = true
    · simp only [insertField, hle, if_true]
      refine List.pairwise_cons.mpr ⟨?_, h⟩
      intro r hr
      rcases List.mem_cons.mp hr with rfl | hr
      · exact hle
      · exact strLe_trans hle (hq r hr)
    · simp only [insertField, hle, if_false]
      refine List.pairwise_cons.mpr ⟨?_, insertField_sorted p qs hqs⟩
      intro r hr
      have hmem : r = p ∨ r ∈ qs := by
        have hperm := insertField_perm p qs
        have := hperm.mem_iff.mp hr
        simpa using this
      rcases hmem with rfl | hr
      · exact strLe_total (Bool.eq_false_iff.mpr hle ▸ rfl)
      · exact hq r hr

theorem sortFields_sorted : ∀ l : List (String × JsValue), fieldsSorted (sortFields l)
  | [] => List.Pairwise.nil
  | p :: ps => insertField_sorted p (sortFields ps) (sortFields_sorted ps)

theorem sortFields_perm : ∀ l : List (String × JsValue), List.Perm (sortFields l) l
  | [] => List.Perm.refl _
  | p :: ps => ((insertField_perm p (sortFields ps)).trans ((sortFields_perm ps).cons p))

theorem sortFields_eq_of_sorted : ∀ l : List (String × JsValue), fieldsSorted l → sortFields l = l
  | [], _ => rfl
  | p :: ps, h => by
    obtain ⟨hp, hps⟩ := List.pairwise_cons.mp h
    simp only [sortFields, sortFields_eq_of_sorted ps hps]
    cases ps with
    | nil => rfl
    | cons q qs => simp [insertField, hp q (by simp)]

theorem sortFields_idem (l : List (String × JsValue)) :
    sortFields (sortFields l) = sortFields l :=
  sortFields_eq_of_sorted _ (sortFields_sorted l)

theorem plainJsonFields_all :
    ∀ fs : List (String × JsValue), plainJsonFields fs = fs.all (fun kv => plainJson kv.2)
  | [] => rfl
  | (k, v) :: fs => by simp [plainJsonFields, plainJsonFields_all fs]

mutual

theorem canon_idem : ∀ v : JsValue, canon (canon v) = canon v
  | .null => rfl
  | .bool _ => rfl
  | .num _ => rfl
  | .str _ => rfl
  | .arr xs => by simp only [canon, canonList_idem xs]
  | .obj fs => by
    simp only [canon]
    rw [canonFields_eq_map (sortFields (canonFields fs)), ← sortFields_map_val,
      ← canonFields_eq_map, canonFields_idem fs, sortFields_idem]
  | .jerror _ _ _ => rfl
  | .jmap es => by simp only [canon, canonEntries_idem es]
  | .jset ms => by simp only [canon, canonList_idem ms]
  | .bigint _ => rfl

theorem canonList_idem : ∀ xs : List JsValue, canonList (canonList xs) = canonList xs
  | [] => rfl
  | x :: xs => by simp only [canonList, canon_idem x, canonList_idem xs]

theorem canonFields_idem :
    ∀ fs : List (String × JsValue), canonFields (canonFields fs) = canonFields fs
  | [] => rfl
  | (k, v) :: fs => by simp only [canonFields, canon_idem v, canonFields_idem fs]

theorem canonEntries_idem :
    ∀ es : List (JsValue × JsValue), canonEntries (canonEntries es) = canonEntries es
  | [] => rfl
  | (k, v) :: es => by simp only [canonEntries, canon_idem k, canon_idem v, canonEntries_idem es]

end

namespace ObjectUtils

mutual

theorem plain_serializeVal : ∀ v : JsValue, plainJson (serializeVal v) = true
  | .null => rfl
  | .bool _ => rfl
  | .num _ => rfl
  | .str _ => rfl
  | .arr xs => by simp only [serializeVal, plainJson, plain_serializeList xs]
  | .obj fs => by
    simp only [serializeVal, plainJson]
    have h := plain_serializeFields fs
    rw [plainJsonFields_all] at h ⊢
    rw [List.all_eq_true] at h ⊢
    intro kv hkv
    exact h kv ((sortFields_perm (serializeFields fs)).mem_iff.mp hkv)
  | .jerror n m st => by
    cases st with
    | none => simp [serializeVal, plainJson, plainJsonFields]
    | some s =>
      by_cases hs : s = "" <;>
        simp [serializeVal, plainJson, plainJsonFields, hs]
  | .jmap es => by
    simp only [serializeVal, plainJson, plainJsonFields, plainJsonList,
      plain_serializeEntries es, Bool.and_true, Bool.and_self]
  | .jset ms => by
    simp only [serializeVal, plainJson, plainJsonFields, plainJsonList,
      plain_serializeList ms, Bool.and_true, Bool.and_self]
  | .bigint i => by simp [serializeVal, plainJson, plainJsonFields]

theorem plain_serializeList : ∀ xs : List JsValue, plainJsonList (serializeList xs) = true
  | [] => rfl
  | x :: xs => by
    simp only [serializeList, plainJsonList, plain_serializeVal x, plain_serializeList xs,
      Bool.and_self]

theorem plain_serializeFields :
    ∀ fs : List (String × JsValue), plainJsonFields (serializeFields fs) = true
  | [] => rfl
  | (k, v) :: fs => by
    simp only [serializeFields, plainJsonFields, plain_serializeVal v,
      plain_serializeFields fs, Bool.and_self]

theorem plain_serializeEntries :
    ∀ es : List (JsValue × JsValue), plainJsonList (serializeEntries es) = true
  | [] => rfl
  | (k, v) :: es => by
    simp only [serializeEntries, plainJsonList, plainJson, plain_serializeVal k,
      plain_serializeVal v, plain_serializeEntries es, Bool.and_self, Bool.and_true]

end

end ObjectUtils

namespace ObjectUtils

mutual

theorem serializeVal_eq_canon : ∀ v : JsValue, plainJson v = true → serializeVal v = canon v
  | .null, _ => rfl
  | .bool _, _ => rfl
  | .num _, _ => rfl
  | .str _, _ => rfl
  | .arr xs, h => by
    simp only [plainJson] at h
    simp only [serializeVal, canon, serializeList_eq_canonList xs h]
  | .obj fs, h => by
    simp only [plainJson] at h
    simp only [serializeVal, canon, serializeFields_eq_canonFields fs h]
  | .jerror _ _ _, h => by simp [plainJson] at h
  | .jmap _, h => by simp [plainJson] at h
  | .jset _, h => by simp [plainJson] at h
  | .bigint _, h => by simp [plainJson] at h

theorem serializeList_eq_canonList :
    ∀ xs : List JsValue, plainJsonList xs = true → serializeList xs = canonList xs
  | [], _ => rfl
  | x :: xs, h => by
    simp only [plainJsonList, Bool.and_eq_true] at h
    simp only [serializeList, canonList, serializeVal_eq_canon x h.1,
      serializeList_eq_canonList xs h.2]

theorem serializeFields_eq_canonFields :
    ∀ fs : List (String × JsValue), plainJsonFields fs = true → serializeFields fs = canonFields fs
  | [], _ => rfl
  | (k, v) :: fs, h => by
    simp only [plainJsonFields, Bool.and_eq_true] at h
    simp only [serializeFields, canonFields, serializeVal_eq_canon v h.1,
      serializeFields_eq_canonFields fs h.2]

end

/-- The serializer never produces a bare string from a non-string: used to
show a non-string `dataType` stays non-string across serialization. -/
theorem serializeVal_str {w : JsValue} {s : String} (h : serializeVal w = .str s) :
    w = .str s := by
  cases w <;> simp [serializeVal] at h ⊢
  exact h

end ObjectUtils

/-- Pairwise-distinct keys of a model object, as real JS objects have. -/
def keysNodup : List (String × JsValue) → Bool
  | [] => true
  | (k, _) :: fs => !(fs.any (fun kv => kv.1 = k)) && keysNodup fs

theorem find?_key_of_mem :
    ∀ (l : List (String × JsValue)), keysNodup l = true →
      ∀ (k : String) (v : JsValue), (k, v) ∈ l →
        l.find? (fun kv => kv.1 = k) = some (k, v)
  | [], _, k, v, h => absurd h (by simp)
  | (k1, v1) :: fs, hnd, k, v, hmem => by
    simp only [keysNodup, Bool.and_eq_true, Bool.not_eq_true'] at hnd
    rcases List.mem_cons.mp hmem with heq | hmem
    · injection heq with h1 h2
      subst h1; subst h2
      simp [List.find?]
    · by_cases hk : k1 = k
      · subst hk
        have : fs.any (fun kv => kv.1 = k1) = true :=
          List.any_eq_true.mpr ⟨(k1, v), hmem, by simp⟩
        rw [this] at hnd
        exact absurd hnd.1 (by simp)
      · rw [List.find?_cons_of_neg _ (by simp [hk])]
        exact find?_key_of_mem fs hnd.2 k v hmem

theorem keysNodup_iff :
    ∀ l : List (String × JsValue), keysNodup l = true ↔ (l.map Prod.fst).Nodup
  | [] => by simp [keysNodup]
  | (k, v) :: fs => by
    simp only [keysNodup, Bool.and_eq_true, List.map_cons, List.nodup_cons,
      keysNodup_iff fs, List.mem_map]
    constructor
    · rintro ⟨h1, h2⟩
      refine ⟨?_, h2⟩
      rintro ⟨kv, hkv, rfl⟩
      have h3 : fs.any (fun kv' => kv'.1 = kv.1) = true :=
        List.any_eq_true.mpr ⟨kv, hkv, by simp⟩
      rw [h3] at h1
      exact absurd h1 (by simp)
    · rintro ⟨h1, h2⟩
      refine ⟨?_, h2⟩
      have h3 : fs.any (fun kv' => kv'.1 = k) = false := by
        rw [List.any_eq_false]
        intro kv hkv
        simp only [decide_eq_true_eq]
        intro he
        exact h1 ⟨kv, hkv, he⟩
      rw [h3]
      rfl

theorem keysNodup_sortSerialize (fs : List (String × JsValue)) (h : keysNodup fs = true) :
    keysNodup (sortFields (ObjectUtils.serializeFields fs)) = true := by
  rw [keysNodup_iff] at h ⊢
  have hperm : List.Perm ((sortFields (ObjectUtils.serializeFields fs)).map Prod.fst)
      ((ObjectUtils.serializeFields fs).map Prod.fst) := (sortFields_perm _).map _
  rw [hperm.nodup_iff]
  rw [ObjectUtils.serializeFields_eq_map, List.map_map]
  simpa using h

theorem jsGet_sortSerialize (fs : List (String × JsValue)) (hnd : keysNodup fs = true)
    (k : String) :
    jsGet (.obj (sortFields (ObjectUtils.serializeFields fs))) k
      = (jsGet (.obj fs) k).map ObjectUtils.serializeVal := by
  cases hfind : fs.find? (fun kv => kv.1 = k) with
  | none =>
    have hnone : ∀ kv ∈ fs, kv.1 ≠ k := by
      intro kv hkv
      have := List.find?_eq_none.mp hfind kv hkv
      simpa using this
    have hnone2 : (sortFields (ObjectUtils.serializeFields fs)).find? (fun kv => kv.1 = k)
        = none := by
      rw [List.find?_eq_none]
      intro kv hkv
      have hkv' := (sortFields_perm _).mem_iff.mp hkv
      rw [ObjectUtils.serializeFields_eq_map] at hkv'
      obtain ⟨kv0, hkv0, rfl⟩ := List.mem_map.mp hkv'
      simpa using hnone kv0 hkv0
    simp [jsGet, hfind, hnone2]
  | some kv0 =>
    have hmem := List.mem_of_find?_eq_some hfind
    have hpred := List.find?_some hfind
    obtain ⟨k0, v0⟩ := kv0
    have hk : k0 = k := by simpa using hpred
    subst hk
    have hmem2 : (k0, ObjectUtils.serializeVal v0)
        ∈ sortFields (ObjectUtils.serializeFields fs) := by
      rw [(sortFields_perm _).mem_iff, ObjectUtils.serializeFields_eq_map]
      exact List.mem_map.mpr ⟨(k0, v0), hmem, rfl⟩
    have hfind2 := find?_key_of_mem _ (keysNodup_sortSerialize fs hnd) k0
      (ObjectUtils.serializeVal v0) hmem2
    simp [jsGet, hfind, hfind2]

theorem findTag_sortSerialize (fs : List (String × JsValue)) (hnd : keysNodup fs = true)
    (h : findTag fs = none) :
    findTag (sortFields (ObjectUtils.serializeFields fs)) = none := by
  unfold findTag at h ⊢
  rw [jsGet_sortSerialize fs hnd "dataType", jsGet_sortSerialize fs hnd "value"]
  cases hd : jsGet (.obj fs) "dataType" with
  | none => rfl
  | some w =>
    cases hv : jsGet (.obj fs) "value" with
    | none => cases w <;> simp [ObjectUtils.serializeVal]
    | some dv =>
      rw [hd, hv] at h
      cases w with
      | str d =>
        by_cases hr : reservedTag d = true
        · simp [hr] at h
        · simp only [ObjectUtils.serializeVal, Option.map_some']
          simp [hr]
      | null => simp [ObjectUtils.serializeVal]
      | bool b => simp [ObjectUtils.serializeVal]
      | num n => simp [ObjectUtils.serializeVal]
      | arr xs => simp [ObjectUtils.serializeVal]
      | obj gs => simp [ObjectUtils.serializeVal]
      | jerror a b c => simp [ObjectUtils.serializeVal]
      | jmap es => simp [ObjectUtils.serializeVal]
      | jset ms => simp [ObjectUtils.serializeVal]
      | bigint i => simp [ObjectUtils.serializeVal]

/-- Plainness of both components of each map entry. -/
def plainEntries : List (JsValue × JsValue) → Bool
  | [] => true
  | (k, v) :: es => plainJson k && plainJson v && plainEntries es

mutual

/-- The domain on which the codec's round trip is faithful (see the analysis
of `processValue`): plain data may not use the reserved wrapper shape and, as
real JS objects do, has pairwise-distinct keys; `Error` values must have a
non-empty name and message and no empty-string stack (the `||` defaults would
rewrite them); and `Map`/`Set` contents must themselves be plain JSON, since
the deserializer does not recurse into reconstructed collections. -/
def roundSafe : JsValue → Bool
  | .null => true
  | .bool _ => true
  | .num _ => true
  | .str _ => true
  | .arr xs => roundSafeList xs
  | .obj fs => (findTag fs).isNone && keysNodup fs && roundSafeFields fs
  | .jerror n m st => (!(n = "")) && (!(m = "")) && (!(st = some ""))
  | .jmap es => plainEntries es
  | .jset ms => plainJsonList ms
  | .bigint _ => true

/-- Round-trip safety of array elements. -/
def roundSafeList : List JsValue → Bool
  | [] => true
  | x :: xs => roundSafe x && roundSafeList xs

/-- Round-trip safety of object property values. -/
def roundSafeFields : List (String × JsValue) → Bool
  | [] => true
  | (_, v) :: fs => roundSafe v && roundSafeFields fs

end

theorem digitsToNat_natToDec (n : Nat) : digitsToNat (natToDec n) = n := by
  unfold digitsToNat natToDec
  have := foldl_natToDecAux (n + 1) n 0 (by omega)
  simpa using this

theorem decToInt_intToDecStr (i : Int) : decToInt (intToDecStr i) = i := by
  unfold decToInt intToDecStr intToDec
  by_cases h : i < 0
  · simp only [h, if_true]
    rw [digitsToNat_natToDec]
    omega
  · simp only [h, if_false]
    obtain ⟨c, cs, hc⟩ : ∃ c cs, natToDec i.natAbs = c :: cs := by
      cases hx : natToDec i.natAbs with
      | nil => exact absurd hx (natToDecAux_ne_nil _ _)
      | cons c cs => exact ⟨c, cs, rfl⟩
    have hd : c.isDigit = true := natToDecAux_digits _ _ c (by
      show c ∈ natToDec i.natAbs
      rw [hc]; simp)
    rw [hc]
    split
    · rename_i ds heq
      injection heq with h1
      rw [h1] at hd
      exact absurd hd (by decide)
    · rw [← hc, digitsToNat_natToDec]
      omega

namespace ObjectUtils

theorem processValue_errorWrapper (dv : JsValue) :
    processValue (.obj [("dataType", .str "Error"), ("value", dv)]) =
      .jerror (errField dv "name" "Error") (errField dv "message" "Unknown error")
        (errStack dv) := rfl

theorem processValue_mapWrapper (dv : JsValue) :
    processValue (.obj [("dataType", .str "Map"), ("value", dv)]) =
      .jmap (mapEntriesOf dv) := rfl

theorem processValue_setWrapper (dv : JsValue) :
    processValue (.obj [("dataType", .str "Set"), ("value", dv)]) =
      .jset (setMembersOf dv) := rfl

theorem processValue_bigintWrapper (dv : JsValue) :
    processValue (.obj [("dataType", .str "bigint"), ("value", dv)]) =
      .bigint (decToInt (strOf dv)) := rfl

theorem entries_roundtrip : ∀ es : List (JsValue × JsValue), plainEntries es = true →
    (serializeEntries es).map asEntryPair = canonEntries es
  | [], _ => rfl
  | (k, v) :: es, h => by
    simp only [plainEntries, Bool.and_eq_true] at h
    simp only [serializeEntries, canonEntries, List.map_cons, asEntryPair,
      entries_roundtrip es h.2, serializeVal_eq_canon k h.1.1, serializeVal_eq_canon v h.1.2]

set_option maxHeartbeats 1600000 in
mutual

/-- Heart of the round-trip analysis: on round-safe values, deserializing the
serialized tree yields exactly the canonical form of the original value
(objects with keys in sorted order, everything else unchanged). -/
theorem process_serialize : ∀ v : JsValue, roundSafe v = true →
    processValue (serializeVal v) = canon v
  | .null, _ => rfl
  | .bool _, _ => rfl
  | .num _, _ => rfl
  | .str _, _ => rfl
  | .arr xs, h => by
    simp only [roundSafe] at h
    simp only [serializeVal, processValue, canon, process_serializeList xs h]
  | .obj fs, h => by
    simp only [roundSafe, Bool.and_eq_true] at h
    obtain ⟨⟨htag, hnd⟩, hfs⟩ := h
    rw [Option.isNone_iff_eq_none] at htag
    simp only [serializeVal, processValue, canon]
    rw [findTag_sortSerialize fs hnd htag]
    simp only []
    rw [processFields_eq_map, ← sortFields_map_val, ← processFields_eq_map,
      process_serializeFields fs hfs]
  | .jerror n m st, h => by
    simp only [roundSafe, Bool.and_eq_true, Bool.not_eq_true', decide_eq_false_iff_not] at h
    obtain ⟨⟨hn, hm⟩, hst⟩ := h
    simp only [serializeVal, if_neg hn, if_neg hm]
    cases st with
    | none =>
      rw [show (match (none : Option String) with
            | none => ([] : List (String × JsValue))
            | some s => if s = "" then [] else [("stack", .str s)]) = [] from rfl]
      rw [List.append_nil, processValue_errorWrapper]
      simp only [canon, errField, errStack, jsGet, List.find?]
      simp [if_neg hn, if_neg hm]
    | some s =>
      have hs : ¬(s = "") := fun e => hst (by rw [e])
      rw [show (match (some s : Option String) with
            | none => ([] : List (String × JsValue))
            | some s => if s = "" then [] else [("stack", .str s)])
          = [("stack", .str s)] from by simp [hs]]
      rw [processValue_errorWrapper]
      simp only [canon, errField, errStack, jsGet, List.find?]
      simp [if_neg hn, if_neg hm, if_neg hs]
  | .jmap es, h => by
    simp only [roundSafe] at h
    simp only [serializeVal]
    rw [processValue_mapWrapper]
    simp only [mapEntriesOf, canon, entries_roundtrip es h]
  | .jset ms, h => by
    simp only [roundSafe] at h
    simp only [serializeVal]
    rw [processValue_setWrapper]
    simp only [setMembersOf, canon, serializeList_eq_canonList ms h]
  | .bigint i, _ => by
    simp only [serializeVal]
    rw [processValue_bigintWrapper]
    show JsValue.bigint (decToInt (intToDecStr i)) = canon (.bigint i)
    rw [decToInt_intToDecStr]
    rfl

theorem process_serializeList : ∀ xs : List JsValue, roundSafeList xs = true →
    processList (serializeList xs) = canonList xs
  | [], _ => rfl
  | x :: xs, h => by
    simp only [roundSafeList, Bool.and_eq_true] at h
    simp only [serializeList, processList, canonList, process_serialize x h.1,
      process_serializeList xs h.2]

theorem process_serializeFields : ∀ fs : List (String × JsValue), roundSafeFields fs = true →
    processFields (serializeFields fs) = canonFields fs
  | [], _ => rfl
  | (k, v) :: fs, h => by
    simp only [roundSafeFields, Bool.and_eq_true] at h
    simp only [serializeFields, processFields, canonFields, process_serialize v h.1,
      process_serializeFields fs h.2]

end

end ObjectUtils

namespace ObjectUtils

mutual

theorem serializeVal_canon : ∀ v : JsValue, serializeVal (canon v) = serializeVal v
  | .null => rfl
  | .bool _ => rfl
  | .num _ => rfl
  | .str _ => rfl
  | .arr xs => by simp only [canon, serializeVal, serializeList_canon xs]
  | .obj fs => by
    simp only [canon, serializeVal]
    rw [serializeFields_eq_map (sortFields (canonFields fs)), ← sortFields_map_val,
      ← serializeFields_eq_map, serializeFields_canon fs, sortFields_idem]
  | .jerror _ _ _ => rfl
  | .jmap es => by simp only [canon, serializeVal, serializeEntries_canon es]
  | .jset ms => by simp only [canon, serializeVal, serializeList_canon ms]
  | .bigint _ => rfl

theorem serializeList_canon : ∀ xs : List JsValue, serializeList (canonList xs) = serializeList xs
  | [] => rfl
  | x :: xs => by simp only [canonList, serializeList, serializeVal_canon x,
      serializeList_canon xs]

theorem serializeFields_canon :
    ∀ fs : List (String × JsValue), serializeFields (canonFields fs) = serializeFields fs
  | [] => rfl
  | (k, v) :: fs => by simp only [canonFields, serializeFields, serializeVal_canon v,
      serializeFields_canon fs]

theorem serializeEntries_canon :
    ∀ es : List (JsValue × JsValue), serializeEntries (canonEntries es) = serializeEntries es
  | [] => rfl
  | (k, v) :: es => by simp only [canonEntries, serializeEntries, serializeVal_canon k,
      serializeVal_canon v, serializeEntries_canon es]

end

end ObjectUtils

/-- C1 (counterexample).  The claim — that
`ObjectUtils.deserialize(ObjectUtils.serialize(v))` succeeds and is
structurally equal to `v` for every supported value, including special types
nested inside `Map`/`Set` — fails at the concrete value `Set {1n}`: the
deserializer's `Set` branch passes `dataValue` to the constructor without
recursing, so the round trip returns a `Set` containing the raw wrapper
object `{dataType: "bigint", value: "1"}` instead of the bigint `1n`, which
no structural equality identifies with `1n`. -/
theorem deserialize_serialize_set_bigint_counterexample :
    ObjectUtils.deserialize (ObjectUtils.serialize (.jset [.bigint 1]))
      = .result (.ok (.jset [.obj [("dataType", .str "bigint"), ("value", .str "1")]])) ∧
    canon (.jset [.obj [("dataType", .str "bigint"), ("value", .str "1")]])
      ≠ canon (.jset [.bigint 1]) := by
  refine ⟨rfl, ?_⟩
  intro h
  simp [canon, canonList, canonFields, sortFields, insertField] at h

/-- C1 (amended).  For every round-safe value — built from JSON-representable
data with distinct object keys and no reserved `{dataType, value}` shape,
`Error` instances with non-empty name and message and no empty stack, `Map`,
`Set` and `bigint`, where `Map`/`Set` contents are plain JSON-representable
data — `ObjectUtils.deserialize (ObjectUtils.serialize v)` succeeds and
yields exactly the canonical form of `v`, which is structurally equal to `v`
(identical up to the order of object keys; `Map`/`Set` membership, `BigInt`
values and `Error` name/message/stack are all preserved). -/
theorem deserialize_serialize_roundtrip (v : JsValue) (h : roundSafe v = true) :
    ObjectUtils.deserialize (ObjectUtils.serialize v) = .result (.ok (canon v)) ∧
    canon (canon v) = canon v := by
  constructor
  · unfold ObjectUtils.deserialize ObjectUtils.serialize
    rw [jsonParse_stringify _ (ObjectUtils.plain_serializeVal v)]
    show JsOutcome.result (Except.ok (ObjectUtils.processValue (ObjectUtils.serializeVal v)))
        = JsOutcome.result (Except.ok (canon v))
    rw [ObjectUtils.process_serialize v h]
  · exact canon_idem v

/-- The value the amended C1 witness exercises: an object holding a `Map`
with a string key, an array with an `Error` carrying a stack, a negative
`bigint` and a `Set` of plain values. -/
def roundtripWitnessValue : JsValue :=
  .obj [("b", .jmap [(.str "k", .num 1)]),
        ("a", .arr [.jerror "TypeError" "boom" (some "trace"),
                    .bigint (-5), .jset [.num 2, .str "x"]])]

/-- Witness for the amended C1 at a value exercising every special type. -/
theorem deserialize_serialize_roundtrip_witness :
    roundSafe roundtripWitnessValue = true ∧
    ObjectUtils.deserialize (ObjectUtils.serialize roundtripWitnessValue)
      = .result (.ok (canon roundtripWitnessValue)) :=
  ⟨rfl, (deserialize_serialize_roundtrip roundtripWitnessValue rfl).1⟩

/-- C4.  The claim says malformed JSON makes `ObjectUtils.deserialize` return
a failed typed result carrying a `ValidationError` without raising.  The code
instead evaluates `JSON.parse(json)` synchronously while building the
argument of `ResultAsync.fromPromise`, so the parse exception escapes to the
caller and the `ValidationError` mapping never runs: at the failing input
`"not json"` the call throws. -/
theorem deserialize_malformed_raises :
    ObjectUtils.deserialize "not json"
      = .thrown "SyntaxError: unexpected token in JSON" ∧
    ∀ r : Except ValidationError JsValue,
      ObjectUtils.deserialize "not json" ≠ .result r := by
  refine ⟨rfl, ?_⟩
  intro r h
  rw [show ObjectUtils.deserialize "not json"
      = .thrown "SyntaxError: unexpected token in JSON" from rfl] at h
  exact absurd h (by simp)

/-- C8.  `ObjectUtils.serialize` is deterministic over the structural value of
its argument: values equal up to object-property insertion order (equal
canonical forms) serialize to byte-identical strings, and serializing the
same value twice trivially yields identical output. -/
theorem serialize_deterministic (v w : JsValue) (h : canon v = canon w) :
    ObjectUtils.serialize v = ObjectUtils.serialize w := by
  unfold ObjectUtils.serialize
  rw [← ObjectUtils.serializeVal_canon v, h, ObjectUtils.serializeVal_canon w]

/-- Witness for C8: two objects with the same properties inserted in opposite
orders serialize to the same string. -/
theorem serialize_deterministic_witness :
    canon (.obj [("b", .num 2), ("a", .num 1)]) = canon (.obj [("a", .num 1), ("b", .num 2)]) ∧
    ObjectUtils.serialize (.obj [("b", .num 2), ("a", .num 1)])
      = ObjectUtils.serialize (.obj [("a", .num 1), ("b", .num 2)]) :=
  ⟨rfl, serialize_deterministic _ _ rfl⟩

/-- C9 (counterexample).  The claim says the serializer tags a primitive
bigint with `dataType: "BigInt"`; in fact the `typeof value == "bigint"`
branch emits the lower-case tag `"bigint"` (the `instanceof BigInt` branch
that would emit `"BigInt"` can never fire for a primitive), so at `1n` the
emitted tag is `"bigint"`, not `"BigInt"`. -/
theorem serialize_bigint_tag_counterexample :
    jsGet (ObjectUtils.serializeVal (.bigint 1)) "dataType" = some (.str "bigint") ∧
    ¬ jsGet (ObjectUtils.serializeVal (.bigint 1)) "dataType" = some (.str "BigInt") := by
  refine ⟨rfl, ?_⟩
  intro h
  rw [show jsGet (ObjectUtils.serializeVal (.bigint 1)) "dataType"
      = some (.str "bigint") from rfl] at h
  simp at h

/-- C9 (amended).  Serializing a primitive bigint — directly or inside a
container — produces the tagged wrapper `{dataType: "bigint", value:
<decimal string>}`: the tag is exactly the lower-case string `"bigint"` (and
the deserializer accepts both `"BigInt"` and `"bigint"`). -/
theorem serialize_bigint_tag (i : Int) :
    ObjectUtils.serializeVal (.bigint i)
      = .obj [("dataType", .str "bigint"), ("value", .str (intToDecStr i))] ∧
    ObjectUtils.serializeVal (.arr [.bigint i])
      = .arr [.obj [("dataType", .str "bigint"), ("value", .str (intToDecStr i))]] ∧
    ObjectUtils.processValue (.obj [("dataType", .str "BigInt"), ("value", .str (intToDecStr i))])
      = .bigint i ∧
    ObjectUtils.processValue (.obj [("dataType", .str "bigint"), ("value", .str (intToDecStr i))])
      = .bigint i := by
  refine ⟨rfl, rfl, ?_, ?_⟩
  · show JsValue.bigint (decToInt (strOf (.str (intToDecStr i)))) = .bigint i
    rw [show strOf (.str (intToDecStr i)) = intToDecStr i from rfl, decToInt_intToDecStr]
  · rw [ObjectUtils.processValue_bigintWrapper]
    rw [show strOf (.str (intToDecStr i)) = intToDecStr i from rfl, decToInt_intToDecStr]

theorem toNat_ofNat_valid (n : Nat) (h : Nat.isValidChar n) : (Char.ofNat n).toNat = n := by
  unfold Char.ofNat Char.toNat
  rw [dif_pos h]
  simp [Char.ofNatAux, UInt32.toNat, BitVec.toNat_ofNatLt]

theorem char_scalar_facts (c : Char) :
    c.toNat < 1114112 ∧ ¬(55296 ≤ c.toNat ∧ c.toNat ≤ 57343) := by
  have h := c.valid
  unfold UInt32.isValidChar Nat.isValidChar at h
  unfold Char.toNat
  rcases h with h | ⟨h1, h2⟩ <;> constructor <;> omega

/-- UTF-8 bytes of one character. -/
def utf8EncodeChar (c : Char) : List Nat :=
  let n := c.toNat
  if n < 128 then [n]
  else if n < 2048 then [192 + n / 64, 128 + n % 64]
  else if n < 65536 then [224 + n / 4096, 128 + (n / 64) % 64, 128 + n % 64]
  else [240 + n / 262144, 128 + (n / 4096) % 64, 128 + (n / 64) % 64, 128 + n % 64]

/-- UTF-8 bytes of a character list. -/
def utf8EncodeList : List Char → List Nat
  | [] => []
  | c :: cs => utf8EncodeChar c ++ utf8EncodeList cs

mutual

/-- Strict UTF-8 decoding: rejects stray continuations, overlong forms,
surrogates and out-of-range codes — the failures `decodeURIComponent` raises
`URIError` for. -/
def utf8Decode : List Nat → Option (List Char)
  | [] => some []
  | b :: bs =>
    if b < 128 then (utf8Decode bs).map (Char.ofNat b :: ·)
    else if b < 192 then none
    else if b < 224 then utf8Tail2 b bs
    else if b < 240 then utf8Tail3 b bs
    else if b < 248 then utf8Tail4 b bs
    else none

/-- One continuation byte of a two-byte sequence. -/
def utf8Tail2 (b : Nat) : List Nat → Option (List Char)
  | b2 :: bs' =>
    if 128 ≤ b2 ∧ b2 < 192 then
      if (b - 192) * 64 + (b2 - 128) < 128 then none
      else (utf8Decode bs').map (Char.ofNat ((b - 192) * 64 + (b2 - 128)) :: ·)
    else none
  | _ => none

/-- Two continuation bytes of a three-byte sequence. -/
def utf8Tail3 (b : Nat) : List Nat → Option (List Char)
  | b2 :: b3 :: bs' =>
    if (128 ≤ b2 ∧ b2 < 192) ∧ (128 ≤ b3 ∧ b3 < 192) then
      if (b - 224) * 4096 + (b2 - 128) * 64 + (b3 - 128) < 2048 then none
      else if 55296 ≤ (b - 224) * 4096 + (b2 - 128) * 64 + (b3 - 128) ∧
          (b - 224) * 4096 + (b2 - 128) * 64 + (b3 - 128) ≤ 57343 then none
      else (utf8Decode bs').map
        (Char.ofNat ((b - 224) * 4096 + (b2 - 128) * 64 + (b3 - 128)) :: ·)
    else none
  | _ => none

/-- Three continuation bytes of a four-byte sequence. -/
def utf8Tail4 (b : Nat) : List Nat → Option (List Char)
  | b2 :: b3 :: b4 :: bs' =>
    if (128 ≤ b2 ∧ b2 < 192) ∧ (128 ≤ b3 ∧ b3 < 192) ∧ (128 ≤ b4 ∧ b4 < 192) then
      if (b - 240) * 262144 + (b2 - 128) * 4096 + (b3 - 128) * 64 + (b4 - 128) < 65536 then none
      else if 1114112 ≤ (b - 240) * 262144 + (b2 - 128) * 4096 + (b3 - 128) * 64 + (b4 - 128) then
        none
      else (utf8Decode bs').map
        (Char.ofNat ((b - 240) * 262144 + (b2 - 128) * 4096 + (b3 - 128) * 64 + (b4 - 128)) :: ·)
    else none
  | _ => none

end

theorem utf8_char_step (c : Char) (bs : List Nat) :
    utf8Decode (utf8EncodeChar c ++ bs) = (utf8Decode bs).map (c :: ·) := by
  obtain ⟨hv, hs⟩ := char_scalar_facts c
  unfold utf8EncodeChar
  by_cases h1 : c.toNat < 128
  · simp only [h1, if_true, List.cons_append, List.nil_append, utf8Decode]
    rw [Char.ofNat_toNat]
  · by_cases h2 : c.toNat < 2048
    · simp only [h1, h2, if_true, if_false, List.cons_append, List.nil_append, utf8Decode]
      rw [if_neg (by omega), if_neg (by omega), if_pos (by omega)]
      simp only [utf8Tail2]
      rw [if_pos (by omega)]
      rw [show (192 + c.toNat / 64 - 192) * 64 + (128 + c.toNat % 64 - 128) = c.toNat by omega]
      rw [if_neg (by omega), Char.ofNat_toNat]
    · by_cases h3 : c.toNat < 65536
      · simp only [h1, h2, h3, if_true, if_false, List.cons_append, List.nil_append, utf8Decode]
        rw [if_neg (by omega), if_neg (by omega), if_neg (by omega), if_pos (by omega)]
        simp only [utf8Tail3]
        rw [if_pos (by refine ⟨⟨?_, ?_⟩, ?_, ?_⟩ <;> omega)]
        rw [show (224 + c.toNat / 4096 - 224) * 4096 + (128 + c.toNat / 64 % 64 - 128) * 64
            + (128 + c.toNat % 64 - 128) = c.toNat by omega]
        rw [if_neg (by omega), if_neg (by omega), Char.ofNat_toNat]
      · simp only [h1, h2, h3, if_false, List.cons_append, List.nil_append, utf8Decode]
        rw [if_neg (by omega), if_neg (by omega), if_neg (by omega), if_neg (by omega),
          if_pos (by omega)]
        simp only [utf8Tail4]
        rw [if_pos (by refine ⟨⟨?_, ?_⟩, ⟨?_, ?_⟩, ?_, ?_⟩ <;> omega)]
        rw [show (240 + c.toNat / 262144 - 240) * 262144 + (128 + c.toNat / 4096 % 64 - 128) * 4096
            + (128 + c.toNat / 64 % 64 - 128) * 64 + (128 + c.toNat % 64 - 128) = c.toNat by omega]
        rw [if_neg (by omega), if_neg (by omega), Char.ofNat_toNat]

theorem utf8_roundtrip : ∀ cs : List Char, utf8Decode (utf8EncodeList cs) = some cs
  | [] => rfl
  | c :: cs => by
    simp only [utf8EncodeList, utf8_char_step c (utf8EncodeList cs), utf8_roundtrip cs,
      Option.map_some']

theorem utf8EncodeChar_lt_256 (c : Char) : ∀ b ∈ utf8EncodeChar c, b < 256 := by
  obtain ⟨hv, _⟩ := char_scalar_facts c
  unfold utf8EncodeChar
  by_cases h1 : c.toNat < 128
  · simp only [h1, if_true]
    intro b hb
    simp at hb
    omega
  · by_cases h2 : c.toNat < 2048
    · simp only [h1, h2, if_true, if_false]
      intro b hb
      simp at hb
      rcases hb with rfl | rfl <;> omega
    · by_cases h3 : c.toNat < 65536
      · simp only [h1, h2, h3, if_true, if_false]
        intro b hb
        simp at hb
        rcases hb with rfl | rfl | rfl <;> omega
      · simp only [h1, h2, h3, if_false]
        intro b hb
        simp at hb
        rcases hb with rfl | rfl | rfl | rfl <;> omega

theorem utf8EncodeList_lt_256 : ∀ cs : List Char, ∀ b ∈ utf8EncodeList cs, b < 256
  | [] => by simp [utf8EncodeList]
  | c :: cs => by
    simp only [utf8EncodeList]
    intro b hb
    rcases List.mem_append.mp hb with hb | hb
    · exact utf8EncodeChar_lt_256 c b hb
    · exact utf8EncodeList_lt_256 cs b hb

/-- Base64 alphabet character for a 6-bit value. -/
def b64Char (n : Nat) : Char :=
  if n < 26 then Char.ofNat (65 + n)
  else if n < 52 then Char.ofNat (97 + (n - 26))
  else if n < 62 then Char.ofNat (48 + (n - 52))
  else if n = 62 then '+'
  else '/'

/-- Base64 value of an alphabet character, if any. -/
def b64Val (c : Char) : Option Nat :=
  if 65 ≤ c.toNat ∧ c.toNat ≤ 90 then some (c.toNat - 65)
  else if 97 ≤ c.toNat ∧ c.toNat ≤ 122 then some (c.toNat - 97 + 26)
  else if 48 ≤ c.toNat ∧ c.toNat ≤ 57 then some (c.toNat - 48 + 52)
  else if c = '+' then some 62
  else if c = '/' then some 63
  else none

theorem b64Val_b64Char {n : Nat} (h : n < 64) : b64Val (b64Char n) = some n := by
  interval_cases n <;> rfl

theorem b64Char_ne_pad {n : Nat} (h : n < 64) : b64Char n ≠ '=' := by
  interval_cases n <;> decide

/-- Standard base64 encoding of a byte list, with `=` padding, as `btoa`
produces it. -/
def b64Encode : List Nat → List Char
  | [] => []
  | [b1] => [b64Char (b1 / 4), b64Char (b1 % 4 * 16), '=', '=']
  | [b1, b2] => [b64Char (b1 / 4), b64Char (b1 % 4 * 16 + b2 / 16), b64Char (b2 % 16 * 4), '=']
  | b1 :: b2 :: b3 :: bs =>
    b64Char (b1 / 4) :: b64Char (b1 % 4 * 16 + b2 / 16) ::
      b64Char (b2 % 16 * 4 + b3 / 64) :: b64Char (b3 % 64) :: b64Encode bs

/-- Base64 decoding as `atob` treats the encoder's output language: full
four-character groups, with `=` padding only in a final group.  Inputs real
`atob` would additionally accept (unpadded final groups) decode the same way;
malformed inputs fail. -/
def b64Decode : List Char → Option (List Nat)
  | [] => some []
  | [c1, c2] =>
    (match b64Val c1, b64Val c2 with
     | some v1, some v2 => some [v1 * 4 + v2 / 16]
     | _, _ => none)
  | [c1, c2, c3] =>
    (match b64Val c1, b64Val c2, b64Val c3 with
     | some v1, some v2, some v3 => some [v1 * 4 + v2 / 16, v2 % 16 * 16 + v3 / 4]
     | _, _, _ => none)
  | [c1, c2, '=', '='] =>
    (match b64Val c1, b64Val c2 with
     | some v1, some v2 => some [v1 * 4 + v2 / 16]
     | _, _ => none)
  | [c1, c2, c3, '='] =>
    (match b64Val c1, b64Val c2, b64Val c3 with
     | some v1, some v2, some v3 => some [v1 * 4 + v2 / 16, v2 % 16 * 16 + v3 / 4]
     | _, _, _ => none)
  | c1 :: c2 :: c3 :: c4 :: rest =>
    (match b64Val c1, b64Val c2, b64Val c3, b64Val c4 with
     | some v1, some v2, some v3, some v4 =>
       match b64Decode rest with
       | some bs => some ((v1 * 4 + v2 / 16) :: (v2 % 16 * 16 + v3 / 4) :: (v3 % 4 * 64 + v4) :: bs)
       | none => none
     | _, _, _, _ => none)
  | _ => none

set_option maxHeartbeats 1600000 in
theorem b64_roundtrip : ∀ bs : List Nat, (∀ b ∈ bs, b < 256) →
    b64Decode (b64Encode bs) = some bs
  | [], _ => rfl
  | [b1], h => by
    have hb1 : b1 < 256 := h b1 (by simp)
    have h1 : b1 / 4 < 64 := by omega
    have h2 : b1 % 4 * 16 < 64 := by omega
    simp only [b64Encode, b64Decode, b64Val_b64Char h1, b64Val_b64Char h2]
    rw [show b1 / 4 * 4 + b1 % 4 * 16 / 16 = b1 from by omega]
  | [b1, b2], h => by
    have hb1 : b1 < 256 := h b1 (by simp)
    have hb2 : b2 < 256 := h b2 (by simp)
    have h1 : b1 / 4 < 64 := by omega
    have h2 : b1 % 4 * 16 + b2 / 16 < 64 := by omega
    have h3 : b2 % 16 * 4 < 64 := by omega
    simp only [b64Encode]
    rw [b64Decode.eq_def]
    split
    · rename_i heq
      exact absurd heq (by simp)
    · rename_i c1 c2 heq
      exact absurd heq (by simp)
    · rename_i c1 c2 c3 heq
      exact absurd heq (by simp)
    · rename_i c1 c2 heq
      injection heq with e1 heq
      injection heq with e2 heq
      injection heq with e3 heq
      exact absurd e3 (b64Char_ne_pad h3)
    · rename_i c1 c2 c3 hx heq
      injection heq with e1 heq
      injection heq with e2 heq
      injection heq with e3 heq
      subst e1; subst e2; subst e3
      simp only [b64Val_b64Char h1, b64Val_b64Char h2, b64Val_b64Char h3]
      rw [show b1 / 4 * 4 + (b1 % 4 * 16 + b2 / 16) / 16 = b1 from by omega]
      rw [show (b1 % 4 * 16 + b2 / 16) % 16 * 16 + b2 % 16 * 4 / 4 = b2 from by omega]
    · rename_i c1 c2 c3 c4 rest hx1 hx2 heq
      injection heq with e1 heq
      injection heq with e2 heq
      injection heq with e3 heq
      injection heq with e4 heq
      exact absurd trivial (fun _ => hx2 e4.symm heq.symm)
    · rename_i hne1 hne2 hne3 hne4 hne5 hne6
      exact absurd trivial (fun _ => hne5 (b64Char (b1 / 4)) (b64Char (b1 % 4 * 16 + b2 / 16))
        (b64Char (b2 % 16 * 4)) rfl)
  | b1 :: b2 :: b3 :: bs, h => by
    have hb1 : b1 < 256 := h b1 (by simp)
    have hb2 : b2 < 256 := h b2 (by simp)
    have hb3 : b3 < 256 := h b3 (by simp)
    have h1 : b1 / 4 < 64 := by omega
    have h2 : b1 % 4 * 16 + b2 / 16 < 64 := by omega
    have h3 : b2 % 16 * 4 + b3 / 64 < 64 := by omega
    have h4 : b3 % 64 < 64 := by omega
    have ih := b64_roundtrip bs (fun b hb => h b (by simp [hb]))
    simp only [b64Encode]
    rw [b64Decode.eq_def]
    split
    · rename_i heq
      exact absurd heq (by simp)
    · rename_i c1 c2 heq
      exact absurd heq (by simp)
    · rename_i c1 c2 c3 heq
      exact absurd heq (by simp)
    · rename_i c1 c2 heq
      injection heq with e1 heq
      injection heq with e2 heq
      injection heq with e3 heq
      exact absurd e3 (b64Char_ne_pad h3)
    · rename_i c1 c2 c3 heq
      injection heq with e1 heq
      injection heq with e2 heq
      injection heq with e3 heq
      injection heq with e4 heq
      exact absurd e4 (b64Char_ne_pad h4)
    · rename_i c1 c2 c3 c4 rest heq
      injection heq with e1 heq
      injection heq with e2 heq
      injection heq with e3 heq
      injection heq with e4 heq
      subst e1; subst e2; subst e3; subst e4; subst heq
      simp only [b64Val_b64Char h1, b64Val_b64Char h2, b64Val_b64Char h3, b64Val_b64Char h4, ih]
      rw [show b1 / 4 * 4 + (b1 % 4 * 16 + b2 / 16) / 16 = b1 from by omega]
      rw [show (b1 % 4 * 16 + b2 / 16) % 16 * 16 + (b2 % 16 * 4 + b3 / 64) / 4 = b2 from by omega]
      rw [show (b2 % 16 * 4 + b3 / 64) % 4 * 64 + b3 % 64 = b3 from by omega]
    · rename_i hne1 hne2 hne3 hne4 hne5 hne6
      exact absurd rfl (hne6 (b64Char (b1 / 4)) (b64Char (b1 % 4 * 16 + b2 / 16))
        (b64Char (b2 % 16 * 4 + b3 / 64)) (b64Char (b3 % 64)) (b64Encode bs))

/-! ## The x402 utilities (`src/src/utils/x402Utils.ts`) -/

/-- A character `String.prototype.trim` removes: the ECMAScript WhiteSpace and
LineTerminator sets. -/
def jsWhitespace (c : Char) : Bool :=
  c = ' ' || c = '\t' || c = '\n' || c = '\r' ||
  c.toNat = 11 || c.toNat = 12 || c.toNat = 160 || c.toNat = 5760 ||
  (8192 ≤ c.toNat && c.toNat ≤ 8202) || c.toNat = 8232 || c.toNat = 8233 ||
  c.toNat = 8239 || c.toNat = 8287 || c.toNat = 12288 || c.toNat = 65279

/-- `String.prototype.trim` on the character list: drop leading and trailing
whitespace. -/
def trimChars (cs : List Char) : List Char :=
  ((cs.dropWhile jsWhitespace).reverse.dropWhile jsWhitespace).reverse

/-- `raw.trim()`. -/
def jsTrim (s : String) : String :=
  String.mk (trimChars s.data)

/-- The `\x7b` character (an object opener), written by code so no brace
appears in a literal. -/
def lbraceChar : Char := Char.ofNat 123

/-- `s.startsWith("\x7b") || s.startsWith("[")` on the character list. -/
def startsJson : List Char → Bool
  | [] => false
  | c :: _ => c = lbraceChar || c = '['

/-- `trimmed.replace(/^"+|"+$/g, "")`: strip a leading run and a trailing run
of double quotes. -/
def stripQuotes (s : String) : String :=
  String.mk (((s.data.dropWhile (· = '"')).reverse.dropWhile (· = '"')).reverse)

/-- `x402Base64EncodeUtf8` (`x402Utils.ts`, lines 64–75): base64 of the UTF-8
bytes of the string (the browser path `btoa(unescape(encodeURIComponent(s)))`). -/
def x402Base64EncodeUtf8 (s : String) : String :=
  String.mk (b64Encode (utf8EncodeList s.data))

/-- `x402Base64DecodeUtf8` (`x402Utils.ts`, lines 77–88): decode base64, then
decode the bytes as UTF-8 (`decodeURIComponent(escape(atob(s)))`).  `none`
models the exceptions `atob` and `decodeURIComponent` throw on malformed
input. -/
def x402Base64DecodeUtf8 (s : String) : Option String :=
  (b64Decode s.data).bind (fun bs => (utf8Decode bs).map String.mk)

/-- `x402ParseJsonOrBase64Json` (`x402Utils.ts`, lines 90–109).  JSON if the
trimmed header opens an object or array; otherwise base64(JSON); on any
failure of that attempt, once more after stripping quote runs.  `.error`
models a thrown exception, with the parser's message. -/
def x402ParseJsonOrBase64Json (raw : String) : Except String JsValue :=
  if startsJson (jsTrim raw).data then jsonParse (jsTrim raw)
  else
    match (match x402Base64DecodeUtf8 (jsTrim raw) with
           | some decoded => jsonParse decoded
           | none => .error "InvalidCharacterError: invalid base64") with
    | .ok v => .ok v
    | .error _ =>
      if startsJson (stripQuotes (jsTrim raw)).data then
        jsonParse (stripQuotes (jsTrim raw))
      else
        match x402Base64DecodeUtf8 (stripQuotes (jsTrim raw)) with
        | some decoded => jsonParse decoded
        | none => .error "InvalidCharacterError: invalid base64"

/-- `x402NormalizeAcceptedPayments` (`x402Utils.ts`, lines 111–124): collect
`accepted` (spread when an array, pushed whole otherwise, skipped when null or
absent) then the elements of `paymentRequirements` when it is an array, and
keep the truthy candidates (`filter(Boolean)`). -/
def x402NormalizeAcceptedPayments (req : JsValue) : List JsValue :=
  ((match jsGet req "accepted" with
    | none => []
    | some .null => []
    | some (.arr xs) => xs
    | some v => [v])
   ++ (match jsGet req "paymentRequirements" with
       | some (.arr xs) => xs
       | _ => [])).filter jsTruthy

/-- `x402GetChainIdFromNetwork` (`x402Utils.ts`, lines 126–132): match
`^eip155:(\d+)$` and return `Number(m[1])` when finite.  The digit string's
exact value is kept (`Number` rounds it to a double, but the caller only
compares the result with 8453, where rounding is the identity); `Number` is
infinite exactly when the value reaches `2^1024 - 2^970`, the double overflow
threshold. -/
def x402GetChainIdFromNetwork (network : String) : Option Nat :=
  match network.data with
  | 'e' :: 'i' :: 'p' :: '1' :: '5' :: '5' :: ':' :: ds =>
    if ds.isEmpty then none
    else if ds.all Char.isDigit then
      if digitsToNat ds < 2 ^ 1024 - 2 ^ 970 then some (digitsToNat ds) else none
    else none
  | _ => none

/-- `x402IsUsdcOnBase` (`x402Utils.ts`, lines 134–139): chain 8453 and the
lower-cased asset address equal to Base mainnet USDC. -/
def x402IsUsdcOnBase (chainId : Nat) (asset : String) : Bool :=
  chainId == 8453 && jsToLower asset == "0x833589fcd6edb6e08f4c7c32d4f71b54bda02913"

/-! ## The x402 payment orchestrator (`OneShotPay.x402Fetch`) -/

/-- An HTTP response as `x402Fetch` reads it: the status code and the
`PAYMENT-REQUIRED` header, when present (`headers.get("payment-required") ??
headers.get("PAYMENT-REQUIRED")`; `Headers.get` is case-insensitive, so one
optional value models both reads). -/
structure X402Response where
  status : Nat
  paymentRequired : Option String
  deriving Repr

/-- A signed ERC-3009 authorization as returned by the wallet
(`ISignedERC3009TransferWithAuthorization`): the fields `x402Fetch` copies
into the payment payload. -/
structure SignedAuth where
  signature : String
  fromAddr : String
  toAddr : String
  value : String
  validAfter : Int
  validBefore : Int
  nonce : String
  deriving Repr

/-- One invocation of `getERC3009Signature`, in the source's argument order:
`(requestUrl, payTo, amount, validUntil, validAfter)`. -/
structure SignerCall where
  recipient : String
  payTo : JsValue
  amount : JsValue
  validUntil : Int
  validAfter : Int
  deriving Repr

/-- How an `x402Fetch` call settles: the final response, an `AjaxError` built
by the orchestrator, the signer's error propagated (`ProxyError | AjaxError`
from `getERC3009Signature`), the retried fetch's rejection, or a synchronous
exception escaping the combinator chain. -/
inductive X402Outcome where
  | ok (r : X402Response)
  | ajaxError (msg : String)
  | signerError (msg : String)
  | fetchError (msg : String)
  | thrown (msg : String)
  deriving Repr

/-- The observable trace of one `x402Fetch` call: every signer invocation,
every `PAYMENT-SIGNATURE` header value sent on a retried request, and the
outcome. -/
structure X402Trace where
  signerCalls : List SignerCall
  refetchHeaders : List String
  outcome : X402Outcome
  deriving Repr

/-- `(p.scheme ?? "").toLowerCase() === "exact"` for one candidate: absent or
null scheme coalesces to `""`; a string compares lower-cased; any other value
has no `toLowerCase` and throws. -/
def x402SchemeIsExact (p : JsValue) : Except String Bool :=
  match jsGet p "scheme" with
  | none => .ok false
  | some .null => .ok false
  | some (.str s) => .ok (jsToLower s == "exact")
  | some _ => .error "TypeError: p.scheme.toLowerCase is not a function"

/-- `accepted.find((p) => (p.scheme ?? "").toLowerCase() === "exact")`: first
match wins; a predicate exception aborts the search. -/
def x402FindExact : List JsValue → Except String (Option JsValue)
  | [] => .ok none
  | p :: ps =>
    match x402SchemeIsExact p with
    | .error m => .error m
    | .ok true => .ok (some p)
    | .ok false => x402FindExact ps

/-- Nullish coalescing `a ?? b` on field-lookup results: `b` when `a` is
absent (undefined) or null. -/
def jsCoalesce (a b : Option JsValue) : Option JsValue :=
  match a with
  | none => b
  | some .null => b
  | some v => some v

/-- The string a template literal interpolates for a value; the orchestrator
only ever interpolates strings, which pass through unchanged (`ToString` of
other shapes is not modelled). -/
def x402StrOf : JsValue → String
  | .str s => s
  | _ => ""

/-- `x402GetChainIdFromNetwork(network)` on the raw field value: `RegExp.exec`
coerces its argument to a string, the identity on the strings the orchestrator
meets; non-strings are modelled as no-match. -/
def x402ChainIdOf : JsValue → Option Nat
  | .str s => x402GetChainIdFromNetwork s
  | _ => none

/-- `Object.keys(extra).length` as a truth value, for the values
`exact.extra ?? \x7b\x7d` can take: own enumerable keys exist on a non-empty
plain object, a non-empty array (index keys) or a non-empty string (index
keys); not on other primitives, `Map` or `Set`. -/
def x402ExtraNonempty : JsValue → Bool
  | .obj fs => !fs.isEmpty
  | .arr xs => !xs.isEmpty
  | .str s => s ≠ ""
  | _ => false

/-- The `X402PaymentPayloadV2ExactEvm` object `x402Fetch` builds
(`OneShotPay.ts`, lines 464–492), with fields in the source's insertion
order: `x402Version` (the challenge's, when a number, else 2), `resource`
(the challenge's url, defaulting to the request url, plus truthy description
and mimeType), `accepted` (scheme "exact", the four challenge fields,
`maxTimeoutSeconds`, and `extra` when it has keys) and `payload` (the
signature and the authorization copied from the wallet's answer). -/
def x402Payload (req : JsValue) (requestUrl : String)
    (network amount asset payTo : JsValue) (mts : Int) (extra : JsValue)
    (signed : SignedAuth) : JsValue :=
  let resource? := jsGet req "resource"
  let urlVal : JsValue :=
    match jsCoalesce (match resource? with
                      | some r => jsGet r "url"
                      | none => none) (some (.str requestUrl)) with
    | some v => v
    | none => .str requestUrl
  let descFields : List (String × JsValue) :=
    match resource? with
    | some r =>
      match jsGet r "description" with
      | some d => if jsTruthy d then [("description", d)] else []
      | none => []
    | none => []
  let mimeFields : List (String × JsValue) :=
    match resource? with
    | some r =>
      match jsGet r "mimeType" with
      | some d => if jsTruthy d then [("mimeType", d)] else []
      | none => []
    | none => []
  let extraFields : List (String × JsValue) :=
    if x402ExtraNonempty extra then [("extra", extra)] else []
  .obj
    [("x402Version",
      match jsGet req "x402Version" with
      | some (.num n) => .num n
      | _ => .num 2),
     ("resource", .obj (("url", urlVal) :: (descFields ++ mimeFields))),
     ("accepted", .obj
       ([("scheme", .str "exact"), ("network", network), ("amount", amount),
         ("asset", asset), ("payTo", payTo), ("maxTimeoutSeconds", .num mts)]
        ++ extraFields)),
     ("payload", .obj
       [("signature", .str signed.signature),
        ("authorization", .obj
          [("from", .str signed.fromAddr), ("to", .str signed.toAddr),
           ("value", .str signed.value), ("validAfter", .num signed.validAfter),
           ("validBefore", .num signed.validBefore), ("nonce", .str signed.nonce)])])]

/-- `typeof exact.maxTimeoutSeconds === "number" ? exact.maxTimeoutSeconds :
60` (`OneShotPay.ts`, lines 448–449). -/
def x402MtsOf (exact : JsValue) : Int :=
  match jsGet exact "maxTimeoutSeconds" with
  | some (.num n) => n
  | _ => 60

/-- The signing-and-retry tail of `x402Fetch` (`OneShotPay.ts`, lines
447–497), after the timeout `mts` is read: compute the validity window
`[nowSec, nowSec + mts]`, invoke the signer once, and on success retry the
request with the base64(JSON(payload)) `PAYMENT-SIGNATURE` header, returning
the second response whatever its status.  `signer` and `refetch` are the
settled outcomes of `getERC3009Signature` and of the retried `doFetch`. -/
def x402SignM (requestUrl : String) (req : JsValue)
    (network amount asset payTo extra : JsValue) (mts : Int) (nowSec : Nat)
    (signer : Except String SignedAuth)
    (refetch : Except String X402Response) : X402Trace :=
  match signer with
  | .error m => ⟨[⟨requestUrl, payTo, amount, (nowSec : Int) + mts, (nowSec : Int)⟩], [], .signerError m⟩
  | .ok signed =>
    ⟨[⟨requestUrl, payTo, amount, (nowSec : Int) + mts, (nowSec : Int)⟩],
     [x402Base64EncodeUtf8 (stringifyJsonStr
        (x402Payload req requestUrl network amount asset payTo mts extra signed))],
     match refetch with
     | .ok r => .ok r
     | .error m => .fetchError m⟩

/-- The signing-and-retry tail with the timeout still to read from the
selected entry. -/
def x402Sign (requestUrl : String) (req exact : JsValue)
    (network amount asset payTo extra : JsValue) (nowSec : Nat)
    (signer : Except String SignedAuth)
    (refetch : Except String X402Response) : X402Trace :=
  x402SignM requestUrl req network amount asset payTo extra (x402MtsOf exact)
    nowSec signer refetch

/-- The `assetTransferMethod` guard of `x402Fetch` (`OneShotPay.ts`, lines
430–445): read `extra.assetTransferMethod ?? extra.asset_transfer_method`;
a falsy method (absent, null, `""`) passes, a truthy string other than
`"eip3009"` (lower-cased) fails, a truthy non-string throws on
`toLowerCase`.  The guard is staged below: `x402ExtraOf` is
`exact.extra ?? \x7b\x7d`, `x402MethodGuard` the test itself. -/
def x402ExtraOf (exact : JsValue) : JsValue :=
  match jsGet exact "extra" with
  | none => .obj []
  | some .null => .obj []
  | some v => v

/-- The truthy-method branch of the guard: a string is compared lower-cased,
anything else throws on `toLowerCase`. -/
def x402MethodTruthy (requestUrl : String) (req exact : JsValue)
    (network amount asset payTo extra : JsValue) (v : JsValue) (nowSec : Nat)
    (signer : Except String SignedAuth)
    (refetch : Except String X402Response) : X402Trace :=
  match v with
  | .str m =>
    if jsToLower m != "eip3009" then
      ⟨[], [], .ajaxError ("Unsupported x402 assetTransferMethod \"" ++ m
        ++ "\". Only \"eip3009\" is supported.")⟩
    else x402Sign requestUrl req exact network amount asset payTo extra nowSec signer refetch
  | _ => ⟨[], [], .thrown "TypeError: method.toLowerCase is not a function"⟩

/-- The guard proper, over the computed `extra` object. -/
def x402MethodGuard (requestUrl : String) (req exact : JsValue)
    (network amount asset payTo extra : JsValue) (nowSec : Nat)
    (signer : Except String SignedAuth)
    (refetch : Except String X402Response) : X402Trace :=
  match jsCoalesce (jsGet extra "assetTransferMethod")
      (jsGet extra "asset_transfer_method") with
  | none => x402Sign requestUrl req exact network amount asset payTo extra nowSec signer refetch
  | some v =>
    if jsTruthy v then
      x402MethodTruthy requestUrl req exact network amount asset payTo extra v nowSec signer refetch
    else x402Sign requestUrl req exact network amount asset payTo extra nowSec signer refetch

/-- The guard applied to the entry's computed `extra`. -/
def x402WithPayment (requestUrl : String) (req exact : JsValue)
    (network amount asset payTo : JsValue) (nowSec : Nat)
    (signer : Except String SignedAuth)
    (refetch : Except String X402Response) : X402Trace :=
  x402MethodGuard requestUrl req exact network amount asset payTo
    (x402ExtraOf exact) nowSec signer refetch

/-- The field and asset checks of `x402Fetch` on the selected entry
(`OneShotPay.ts`, lines 394–428): require the four fields truthy, a network
of the `eip155:<chainId>` form, and USDC on Base (8453); the asset is
lower-cased inside `x402IsUsdcOnBase`, which throws on a non-string. -/
def x402CheckUsdc (requestUrl : String) (req exact : JsValue)
    (network amount asset payTo : JsValue) (chainId : Nat) (a : String)
    (nowSec : Nat) (signer : Except String SignedAuth)
    (refetch : Except String X402Response) : X402Trace :=
  if x402IsUsdcOnBase chainId a then
    x402WithPayment requestUrl req exact network amount asset payTo nowSec signer refetch
  else
    ⟨[], [], .ajaxError ("Unsupported x402 payment. Only USDC on Base is supported (got asset="
      ++ a ++ ", network=" ++ x402StrOf network ++ ").")⟩

/-- The asset is lower-cased inside `x402IsUsdcOnBase`; a non-string throws
there. -/
def x402CheckAsset (requestUrl : String) (req exact : JsValue)
    (network amount asset payTo : JsValue) (chainId : Nat) (nowSec : Nat)
    (signer : Except String SignedAuth)
    (refetch : Except String X402Response) : X402Trace :=
  match asset with
  | .str a =>
    x402CheckUsdc requestUrl req exact network amount asset payTo chainId a nowSec signer refetch
  | _ => ⟨[], [], .thrown "TypeError: asset.toLowerCase is not a function"⟩

def x402CheckChain (requestUrl : String) (req exact : JsValue)
    (network amount asset payTo : JsValue) (nowSec : Nat)
    (signer : Except String SignedAuth)
    (refetch : Except String X402Response) : X402Trace :=
  match x402ChainIdOf network with
  | none =>
    ⟨[], [], .ajaxError ("Unsupported x402 network \"" ++ x402StrOf network
      ++ "\". Only eip155:<chainId> is supported.")⟩
  | some chainId =>
    x402CheckAsset requestUrl req exact network amount asset payTo chainId nowSec signer refetch

def x402CheckFields (requestUrl : String) (req exact : JsValue)
    (network amount asset payTo : JsValue) (nowSec : Nat)
    (signer : Except String SignedAuth)
    (refetch : Except String X402Response) : X402Trace :=
  if !jsTruthy network || !jsTruthy amount || !jsTruthy asset || !jsTruthy payTo then
    ⟨[], [], .ajaxError "x402 PAYMENT-REQUIRED header missing one of: network, amount, asset, payTo."⟩
  else
    x402CheckChain requestUrl req exact network amount asset payTo nowSec signer refetch

def x402WithExact (requestUrl : String) (req exact : JsValue) (nowSec : Nat)
    (signer : Except String SignedAuth)
    (refetch : Except String X402Response) : X402Trace :=
  match jsGet exact "network", jsGet exact "amount",
        jsGet exact "asset", jsGet exact "payTo" with
  | some network, some amount, some asset, some payTo =>
    x402CheckFields requestUrl req exact network amount asset payTo nowSec signer refetch
  | _, _, _, _ =>
    ⟨[], [], .ajaxError "x402 PAYMENT-REQUIRED header missing one of: network, amount, asset, payTo."⟩

/-- The challenge handling of `x402Fetch` (`OneShotPay.ts`, lines 382–392):
normalize the accepted payments and select the first Exact-scheme entry. -/
def x402WithChallenge (requestUrl : String) (req : JsValue) (nowSec : Nat)
    (signer : Except String SignedAuth)
    (refetch : Except String X402Response) : X402Trace :=
  match x402FindExact (x402NormalizeAcceptedPayments req) with
  | .error m => ⟨[], [], .thrown m⟩
  | .ok none => ⟨[], [], .ajaxError "x402 endpoint does not offer the Exact scheme (required)."⟩
  | .ok (some exact) => x402WithExact requestUrl req exact nowSec signer refetch

/-- The handling of a present `PAYMENT-REQUIRED` header value: parse it
(exceptions become the parse-failure `AjaxError`) and continue with the
challenge. -/
def x402OnHeader (requestUrl : String) (hdr : String) (nowSec : Nat)
    (signer : Except String SignedAuth)
    (refetch : Except String X402Response) : X402Trace :=
  match x402ParseJsonOrBase64Json hdr with
  | .error m => ⟨[], [], .ajaxError ("Failed to parse PAYMENT-REQUIRED header for x402: " ++ m)⟩
  | .ok req => x402WithChallenge requestUrl req nowSec signer refetch

namespace OneShotPay

/-- `OneShotPay.x402Fetch` (`OneShotPay.ts`, lines 333–502) as a trace
function over the settled effects: the first response `resp1`, the clock
reading `nowSec = Math.floor(Date.now() / 1000)`, and the settled outcomes of
the signer call and of the retried fetch (consulted only on the paths that
reach them). -/
def x402Fetch (requestUrl : String) (resp1 : X402Response) (nowSec : Nat)
    (signer : Except String SignedAuth)
    (refetch : Except String X402Response) : X402Trace :=
  if resp1.status != 402 then ⟨[], [], .ok resp1⟩
  else
    match resp1.paymentRequired with
    | none => ⟨[], [], .ajaxError "Received HTTP 402 but missing PAYMENT-REQUIRED header for x402."⟩
    | some hdr => x402OnHeader requestUrl hdr nowSec signer refetch

end OneShotPay


/-- Trimming fixes a string whose first and last characters are not
whitespace. -/
theorem trimChars_wrapped (a b : Char) (mid : List Char)
    (ha : jsWhitespace a = false) (hb : jsWhitespace b = false) :
    trimChars (a :: (mid ++ [b])) = a :: (mid ++ [b]) := by
  simp [trimChars, List.dropWhile_cons, ha, hb]

/-- Encoding a string to base64(UTF-8) and decoding it back is the identity
(the witness that the `PAYMENT-SIGNATURE` header is readable). -/
theorem x402_base64_roundtrip (s : String) :
    x402Base64DecodeUtf8 (x402Base64EncodeUtf8 s) = some s := by
  unfold x402Base64DecodeUtf8 x402Base64EncodeUtf8
  rw [show (String.mk (b64Encode (utf8EncodeList s.data))).data
      = b64Encode (utf8EncodeList s.data) from rfl]
  rw [b64_roundtrip (utf8EncodeList s.data) (utf8EncodeList_lt_256 s.data)]
  show ((utf8Decode (utf8EncodeList s.data)).map String.mk) = some s
  rw [utf8_roundtrip s.data]
  rfl

/-- A single-entry x402 challenge, as a JSON value: one accepted payment. -/
def x402Challenge (entry : JsValue) : JsValue :=
  .obj [("accepted", .arr [entry])]

/-- The challenge as a raw header value: its `JSON.stringify`. -/
def x402Header (entry : JsValue) : String :=
  stringifyJsonStr (x402Challenge entry)

/-- An accepted-payment entry with string fields, optional
`maxTimeoutSeconds`, and optional `extra` object. -/
def x402Entry (sch network amount asset payTo : String) (mto : Option Int)
    (extraF : List (String × JsValue)) : JsValue :=
  .obj ([("scheme", .str sch), ("network", .str network), ("amount", .str amount),
         ("asset", .str asset), ("payTo", .str payTo)]
        ++ (match mto with
            | some m => [("maxTimeoutSeconds", JsValue.num m)]
            | none => [])
        ++ (match extraF with
            | [] => []
            | fs => [("extra", JsValue.obj fs)]))

/-- The raw header built from a plain single-entry challenge parses back to
that challenge tree on the JSON path. -/
theorem x402Parse_header (entry : JsValue) (hp : plainJson entry = true) :
    x402ParseJsonOrBase64Json (x402Header entry) = .ok (x402Challenge entry) := by
  have hdata : (x402Header entry).data
      = lbraceChar :: ((stringifyField ("accepted", .arr [entry])
          ++ stringifyFieldTail []) ++ [Char.ofNat 125]) := by
    show stringifyJson (x402Challenge entry)
        = lbraceChar :: ((stringifyField ("accepted", .arr [entry])
            ++ stringifyFieldTail []) ++ [Char.ofNat 125])
    rw [show x402Challenge entry = .obj [("accepted", .arr [entry])] from rfl]
    rw [show stringifyJson (.obj [("accepted", .arr [entry])])
        = lbraceChar :: (stringifyField ("accepted", .arr [entry])
            ++ stringifyFieldTail [] ++ [Char.ofNat 125]) from rfl]
  have hplain : plainJson (x402Challenge entry) = true := by
    simp [x402Challenge, plainJson, plainJsonFields, plainJsonList, hp]
  have htrim : jsTrim (x402Header entry) = x402Header entry := by
    unfold jsTrim
    rw [hdata, trimChars_wrapped _ _ _ (by decide) (by decide)]
    rw [← hdata]
  unfold x402ParseJsonOrBase64Json
  rw [htrim]
  rw [show startsJson (x402Header entry).data = true from by rw [hdata]; rfl]
  rw [if_pos rfl]
  rw [show x402Header entry = stringifyJsonStr (x402Challenge entry) from rfl,
    jsonParse_stringify _ hplain]

/-- For a 402 response carrying a single-entry challenge whose entry is plain,
truthy, and has an Exact scheme (any letter case), `x402Fetch` reaches the
field checks with that entry selected. -/
theorem x402Fetch_entry (requestUrl sch : String) (entry : JsValue) (nowSec : Nat)
    (signer : Except String SignedAuth) (refetch : Except String X402Response)
    (hplain : plainJson entry = true) (htruthy : jsTruthy entry = true)
    (hsch : jsGet entry "scheme" = some (.str sch)) (hs : jsToLower sch = "exact") :
    OneShotPay.x402Fetch requestUrl ⟨402, some (x402Header entry)⟩ nowSec signer refetch
      = x402WithExact requestUrl (x402Challenge entry) entry nowSec signer refetch := by
  have h1 : OneShotPay.x402Fetch requestUrl ⟨402, some (x402Header entry)⟩ nowSec signer refetch
      = x402OnHeader requestUrl (x402Header entry) nowSec signer refetch := rfl
  have hnorm : x402NormalizeAcceptedPayments (x402Challenge entry) = [entry] := by
    unfold x402NormalizeAcceptedPayments
    rw [show jsGet (x402Challenge entry) "accepted" = some (.arr [entry]) from rfl]
    rw [show jsGet (x402Challenge entry) "paymentRequirements" = none from rfl]
    show List.filter jsTruthy ([entry] ++ []) = [entry]
    simp [List.filter_cons, htruthy]
  have hex : x402SchemeIsExact entry = .ok true := by
    unfold x402SchemeIsExact
    rw [hsch]
    show Except.ok (jsToLower sch == "exact") = .ok true
    rw [hs]
    exact congrArg Except.ok (by decide)
  have hfind : x402FindExact [entry] = .ok (some entry) := by
    unfold x402FindExact
    rw [hex]
  have h2 : x402OnHeader requestUrl (x402Header entry) nowSec signer refetch
      = x402WithChallenge requestUrl (x402Challenge entry) nowSec signer refetch := by
    unfold x402OnHeader
    rw [x402Parse_header entry hplain]
  have h3 : x402WithChallenge requestUrl (x402Challenge entry) nowSec signer refetch
      = x402WithExact requestUrl (x402Challenge entry) entry nowSec signer refetch := by
    unfold x402WithChallenge
    rw [hnorm, hfind]
  rw [h1, h2, h3]

set_option maxRecDepth 8192 in
/-- C7.  Given a 402 response whose accepted entry has the Exact scheme
("exact" in any letter case), the Base USDC asset address compared
case-insensitively, a non-empty amount and payTo, but network `eip155:1`
(chain 1, not 8453), `x402Fetch` fails with the unsupported-payment error and
never invokes the remote signer: the trace has no signer call and no retried
request, whatever the signer or the retried fetch would have returned. -/
theorem x402Fetch_wrong_chain_no_signer (requestUrl sch amount asset payTo : String)
    (nowSec : Nat) (signer : Except String SignedAuth)
    (refetch : Except String X402Response)
    (hs : jsToLower sch = "exact") (ha : amount ≠ "") (hp : payTo ≠ "")
    (hasset : jsToLower asset = "0x833589fcd6edb6e08f4c7c32d4f71b54bda02913") :
    OneShotPay.x402Fetch requestUrl
      ⟨402, some (x402Header (x402Entry sch "eip155:1" amount asset payTo none []))⟩
      nowSec signer refetch
      = ⟨[], [], .ajaxError ("Unsupported x402 payment. Only USDC on Base is supported (got asset="
          ++ asset ++ ", network=" ++ "eip155:1" ++ ").")⟩ := by
  have hassetne : asset ≠ "" := fun he => absurd (he ▸ hasset) (by decide)
  rw [x402Fetch_entry requestUrl sch (x402Entry sch "eip155:1" amount asset payTo none [])
    nowSec signer refetch rfl rfl rfl hs]
  rw [show x402WithExact requestUrl
      (x402Challenge (x402Entry sch "eip155:1" amount asset payTo none []))
      (x402Entry sch "eip155:1" amount asset payTo none []) nowSec signer refetch
    = x402CheckFields requestUrl
      (x402Challenge (x402Entry sch "eip155:1" amount asset payTo none []))
      (x402Entry sch "eip155:1" amount asset payTo none [])
      (.str "eip155:1") (.str amount) (.str asset) (.str payTo) nowSec signer refetch from rfl]
  rw [show x402CheckFields requestUrl
      (x402Challenge (x402Entry sch "eip155:1" amount asset payTo none []))
      (x402Entry sch "eip155:1" amount asset payTo none [])
      (.str "eip155:1") (.str amount) (.str asset) (.str payTo) nowSec signer refetch
    = x402CheckChain requestUrl
      (x402Challenge (x402Entry sch "eip155:1" amount asset payTo none []))
      (x402Entry sch "eip155:1" amount asset payTo none [])
      (.str "eip155:1") (.str amount) (.str asset) (.str payTo) nowSec signer refetch from by
    unfold x402CheckFields
    rw [show (!jsTruthy (JsValue.str "eip155:1") || !jsTruthy (JsValue.str amount)
        || !jsTruthy (JsValue.str asset) || !jsTruthy (JsValue.str payTo)) = false from by
      simp [jsTruthy, ha, hp, hassetne]]
    rw [if_neg Bool.false_ne_true]]
  rw [show x402CheckChain requestUrl
      (x402Challenge (x402Entry sch "eip155:1" amount asset payTo none []))
      (x402Entry sch "eip155:1" amount asset payTo none [])
      (.str "eip155:1") (.str amount) (.str asset) (.str payTo) nowSec signer refetch
    = x402CheckAsset requestUrl
      (x402Challenge (x402Entry sch "eip155:1" amount asset payTo none []))
      (x402Entry sch "eip155:1" amount asset payTo none [])
      (.str "eip155:1") (.str amount) (.str asset) (.str payTo) 1 nowSec signer refetch from by
    unfold x402CheckChain
    rw [show x402ChainIdOf (.str "eip155:1") = some 1 from rfl]]
  rfl

set_option maxRecDepth 8192 in
/-- An entry whose four fields are non-empty strings with network
`eip155:8453` and the Base USDC asset (case-insensitively) passes the field,
chain and asset checks and reaches the method guard. -/
theorem x402WithExact_usdc (requestUrl : String) (req exact : JsValue)
    (amount asset payTo : String) (nowSec : Nat)
    (signer : Except String SignedAuth) (refetch : Except String X402Response)
    (hgn : jsGet exact "network" = some (.str "eip155:8453"))
    (hga : jsGet exact "amount" = some (.str amount))
    (hgs : jsGet exact "asset" = some (.str asset))
    (hgp : jsGet exact "payTo" = some (.str payTo))
    (ha : amount ≠ "") (hp : payTo ≠ "")
    (hasset : jsToLower asset = "0x833589fcd6edb6e08f4c7c32d4f71b54bda02913") :
    x402WithExact requestUrl req exact nowSec signer refetch
      = x402WithPayment requestUrl req exact (.str "eip155:8453") (.str amount)
          (.str asset) (.str payTo) nowSec signer refetch := by
  have hassetne : asset ≠ "" := fun he => absurd (he ▸ hasset) (by decide)
  unfold x402WithExact
  rw [hgn, hga, hgs, hgp]
  show x402CheckFields requestUrl req exact (.str "eip155:8453") (.str amount)
      (.str asset) (.str payTo) nowSec signer refetch = _
  unfold x402CheckFields
  rw [show (!jsTruthy (JsValue.str "eip155:8453") || !jsTruthy (JsValue.str amount)
      || !jsTruthy (JsValue.str asset) || !jsTruthy (JsValue.str payTo)) = false from by
    simp [jsTruthy, ha, hp, hassetne]]
  rw [if_neg Bool.false_ne_true]
  unfold x402CheckChain
  rw [show x402ChainIdOf (.str "eip155:8453") = some 8453 from rfl]
  show x402CheckAsset requestUrl req exact (.str "eip155:8453") (.str amount)
      (.str asset) (.str payTo) 8453 nowSec signer refetch = _
  unfold x402CheckAsset
  show x402CheckUsdc requestUrl req exact (.str "eip155:8453") (.str amount)
      (.str asset) (.str payTo) 8453 asset nowSec signer refetch = _
  unfold x402CheckUsdc
  rw [show x402IsUsdcOnBase 8453 asset = true from by
    unfold x402IsUsdcOnBase
    rw [hasset]
    decide]
  rw [if_pos rfl]

set_option maxRecDepth 8192 in
/-- C2 (amended).  When `x402Fetch` receives a 402 response whose challenge
holds one accepted entry with scheme "exact" (any letter case), network
"eip155:8453", the Base USDC asset compared case-insensitively, a non-empty
amount and payTo, an optional numeric `maxTimeoutSeconds` and no `extra`,
and the wallet signs successfully, it requests exactly one ERC-3009
signature with `validAfter = nowSec` and `validUntil = nowSec +
maxTimeoutSeconds` (60 when omitted), reissues the request exactly once with
a `PAYMENT-SIGNATURE` header whose base64-decoded JSON payload has
`accepted.scheme = "exact"`, and returns the second response whatever its
status.  (The claim as stated omits that the amount must be present and
truthy: see the counterexample.) -/
theorem x402Fetch_exact_usdc_base (requestUrl sch amount asset payTo : String)
    (mto : Option Int) (nowSec : Nat) (signed : SignedAuth) (resp2 : X402Response)
    (hs : jsToLower sch = "exact") (ha : amount ≠ "") (hp : payTo ≠ "")
    (hasset : jsToLower asset = "0x833589fcd6edb6e08f4c7c32d4f71b54bda02913") :
    ∃ hPS,
      OneShotPay.x402Fetch requestUrl
          ⟨402, some (x402Header (x402Entry sch "eip155:8453" amount asset payTo mto []))⟩
          nowSec (.ok signed) (.ok resp2)
        = ⟨[⟨requestUrl, JsValue.str payTo, JsValue.str amount,
             (nowSec : Int) + mto.getD 60, (nowSec : Int)⟩], [hPS], .ok resp2⟩
      ∧ ∃ p t, x402Base64DecodeUtf8 hPS = some p ∧ jsonParse p = Except.ok t
          ∧ (jsGet t "accepted").bind (fun a => jsGet a "scheme")
              = some (JsValue.str "exact") := by
  cases mto with
  | none =>
    refine ⟨x402Base64EncodeUtf8 (stringifyJsonStr
        (x402Payload (x402Challenge (x402Entry sch "eip155:8453" amount asset payTo none []))
          requestUrl (.str "eip155:8453") (.str amount) (.str asset) (.str payTo)
          60 (.obj []) signed)), ?_, stringifyJsonStr
        (x402Payload (x402Challenge (x402Entry sch "eip155:8453" amount asset payTo none []))
          requestUrl (.str "eip155:8453") (.str amount) (.str asset) (.str payTo)
          60 (.obj []) signed),
      x402Payload (x402Challenge (x402Entry sch "eip155:8453" amount asset payTo none []))
          requestUrl (.str "eip155:8453") (.str amount) (.str asset) (.str payTo)
          60 (.obj []) signed,
      x402_base64_roundtrip _, jsonParse_stringify _ rfl, rfl⟩
    rw [x402Fetch_entry requestUrl sch (x402Entry sch "eip155:8453" amount asset payTo none [])
      nowSec (.ok signed) (.ok resp2) rfl rfl rfl hs]
    rw [x402WithExact_usdc requestUrl
      (x402Challenge (x402Entry sch "eip155:8453" amount asset payTo none []))
      (x402Entry sch "eip155:8453" amount asset payTo none [])
      amount asset payTo nowSec (.ok signed) (.ok resp2) rfl rfl rfl rfl ha hp hasset]
    rfl
  | some m =>
    refine ⟨x402Base64EncodeUtf8 (stringifyJsonStr
        (x402Payload (x402Challenge (x402Entry sch "eip155:8453" amount asset payTo (some m) []))
          requestUrl (.str "eip155:8453") (.str amount) (.str asset) (.str payTo)
          m (.obj []) signed)), ?_, stringifyJsonStr
        (x402Payload (x402Challenge (x402Entry sch "eip155:8453" amount asset payTo (some m) []))
          requestUrl (.str "eip155:8453") (.str amount) (.str asset) (.str payTo)
          m (.obj []) signed),
      x402Payload (x402Challenge (x402Entry sch "eip155:8453" amount asset payTo (some m) []))
          requestUrl (.str "eip155:8453") (.str amount) (.str asset) (.str payTo)
          m (.obj []) signed,
      x402_base64_roundtrip _, jsonParse_stringify _ rfl, rfl⟩
    rw [x402Fetch_entry requestUrl sch (x402Entry sch "eip155:8453" amount asset payTo (some m) [])
      nowSec (.ok signed) (.ok resp2) rfl rfl rfl hs]
    rw [x402WithExact_usdc requestUrl
      (x402Challenge (x402Entry sch "eip155:8453" amount asset payTo (some m) []))
      (x402Entry sch "eip155:8453" amount asset payTo (some m) [])
      amount asset payTo nowSec (.ok signed) (.ok resp2) rfl rfl rfl rfl ha hp hasset]
    rfl

/-- The accepted entry of the C2 counterexample: scheme "exact", network
"eip155:8453", the Base USDC asset in its checksum case, payTo present — and
no amount. -/
def c2NoAmountEntry : JsValue :=
  .obj [("scheme", .str "exact"), ("network", .str "eip155:8453"),
        ("asset", .str "0x833589fCD6eDb6E08f4c7C32D4f71b54BdA02913"),
        ("payTo", .str "0xAbc")]

set_option maxRecDepth 16384 in
/-- C2 (counterexample).  The claim's conditions name the scheme, network,
asset and payTo but not the amount.  A challenge meeting every stated
condition yet carrying no amount makes `x402Fetch` fail with the
missing-field error: no signature is requested and the request is not
reissued, against the claim's conclusion. -/
theorem x402Fetch_usdc_base_counterexample :
    OneShotPay.x402Fetch "https://api.example/paid"
        ⟨402, some (x402Header c2NoAmountEntry)⟩ 1700000000
        (.ok ⟨"0xsig", "0xfrom", "0xto", "1000", 1700000000, 1700000060, "0xnonce"⟩)
        (.ok ⟨200, none⟩)
      = ⟨[], [], .ajaxError "x402 PAYMENT-REQUIRED header missing one of: network, amount, asset, payTo."⟩ := by
  rfl

set_option maxRecDepth 16384 in
/-- Witness for the amended C2 at a concrete challenge: mixed-case scheme
"Exact", checksum-case USDC asset, amount "1000", payTo "0xAbc", no
`maxTimeoutSeconds` (so a 60-second window). -/
theorem x402Fetch_exact_usdc_base_witness :
    ∃ hPS,
      OneShotPay.x402Fetch "https://api.example/paid"
          ⟨402, some (x402Header (x402Entry "Exact" "eip155:8453" "1000"
            "0x833589fCD6eDb6E08f4c7C32D4f71b54BdA02913" "0xAbc" (none : Option Int) []))⟩
          1700000000
          (.ok ⟨"0xsig", "0xfrom", "0xto", "1000", 1700000000, 1700000060, "0xnonce"⟩)
          (.ok ⟨200, none⟩)
        = ⟨[⟨"https://api.example/paid", JsValue.str "0xAbc", JsValue.str "1000",
             ((1700000000 : Nat) : Int) + (none : Option Int).getD 60,
             ((1700000000 : Nat) : Int)⟩], [hPS], .ok ⟨200, none⟩⟩
      ∧ ∃ p t, x402Base64DecodeUtf8 hPS = some p ∧ jsonParse p = Except.ok t
          ∧ (jsGet t "accepted").bind (fun a => jsGet a "scheme")
              = some (JsValue.str "exact") :=
  x402Fetch_exact_usdc_base "https://api.example/paid" "Exact" "1000"
    "0x833589fCD6eDb6E08f4c7C32D4f71b54BdA02913" "0xAbc" none 1700000000
    ⟨"0xsig", "0xfrom", "0xto", "1000", 1700000000, 1700000060, "0xnonce"⟩ ⟨200, none⟩
    (by decide) (by decide) (by decide) (by decide)

set_option maxRecDepth 16384 in
/-- Witness for C7 at a concrete challenge on chain 1; the signer and the
retried fetch are both failing stubs, showing neither is consulted. -/
theorem x402Fetch_wrong_chain_no_signer_witness :
    OneShotPay.x402Fetch "https://api.example/paid"
        ⟨402, some (x402Header (x402Entry "exact" "eip155:1" "1000"
          "0x833589fCD6eDb6E08f4c7C32D4f71b54BdA02913" "0xAbc" (none : Option Int) []))⟩
        1700000000 (.error "signer unavailable") (.error "no refetch")
      = ⟨[], [], .ajaxError ("Unsupported x402 payment. Only USDC on Base is supported (got asset="
          ++ "0x833589fCD6eDb6E08f4c7C32D4f71b54BdA02913" ++ ", network=" ++ "eip155:1" ++ ").")⟩ :=
  x402Fetch_wrong_chain_no_signer "https://api.example/paid" "exact" "1000"
    "0x833589fCD6eDb6E08f4c7C32D4f71b54BdA02913" "0xAbc" 1700000000
    (.error "signer unavailable") (.error "no refetch")
    (by decide) (by decide) (by decide) (by decide)

set_option maxRecDepth 16384 in
/-- C10.  When the selected entry's `extra` carries `assetTransferMethod`
equal to the empty string, `x402Fetch` treats the method as absent — the
empty string is falsy, so the `if (method && ...)` guard does not fire even
though `"" !== "eip3009"` — and proceeds with the payment flow: the signer is
invoked exactly once, and for every signer and refetch outcome the call never
ends in an orchestrator `AjaxError` (in particular not the
unsupported-method error). -/
theorem x402Fetch_empty_method_proceeds (nowSec : Nat)
    (signer : Except String SignedAuth) (refetch : Except String X402Response) :
    (OneShotPay.x402Fetch "https://api.example/paid"
        ⟨402, some (x402Header (x402Entry "exact" "eip155:8453" "1000"
          "0x833589fCD6eDb6E08f4c7C32D4f71b54BdA02913" "0xAbc" none
          [("assetTransferMethod", JsValue.str "")]))⟩
        nowSec signer refetch).signerCalls
      = [⟨"https://api.example/paid", JsValue.str "0xAbc", JsValue.str "1000",
          (nowSec : Int) + 60, (nowSec : Int)⟩]
    ∧ ∀ m, (OneShotPay.x402Fetch "https://api.example/paid"
        ⟨402, some (x402Header (x402Entry "exact" "eip155:8453" "1000"
          "0x833589fCD6eDb6E08f4c7C32D4f71b54BdA02913" "0xAbc" none
          [("assetTransferMethod", JsValue.str "")]))⟩
        nowSec signer refetch).outcome ≠ X402Outcome.ajaxError m := by
  rw [x402Fetch_entry "https://api.example/paid" "exact"
    (x402Entry "exact" "eip155:8453" "1000"
      "0x833589fCD6eDb6E08f4c7C32D4f71b54BdA02913" "0xAbc" none
      [("assetTransferMethod", JsValue.str "")])
    nowSec signer refetch rfl rfl rfl (by decide)]
  rw [x402WithExact_usdc "https://api.example/paid"
    (x402Challenge (x402Entry "exact" "eip155:8453" "1000"
      "0x833589fCD6eDb6E08f4c7C32D4f71b54BdA02913" "0xAbc" none
      [("assetTransferMethod", JsValue.str "")]))
    (x402Entry "exact" "eip155:8453" "1000"
      "0x833589fCD6eDb6E08f4c7C32D4f71b54BdA02913" "0xAbc" none
      [("assetTransferMethod", JsValue.str "")])
    "1000" "0x833589fCD6eDb6E08f4c7C32D4f71b54BdA02913" "0xAbc" nowSec signer refetch
    rfl rfl rfl rfl (by decide) (by decide) (by decide)]
  constructor
  · cases signer with
    | ok s => rfl
    | error e => rfl
  · intro m
    cases signer with
    | error e => intro h; exact X402Outcome.noConfusion h
    | ok s =>
      cases refetch with
      | ok r => intro h; exact X402Outcome.noConfusion h
      | error e => intro h; exact X402Outcome.noConfusion h

/-! ## The RPC bridge: pending callbacks and presentation restore
(`OneShotPay.ts`, `WalletProxy.ts`) -/

/-- A settled RPC call together with the number of times the prepare step's
`restore` callback has run (`prepareIframeForDisplay` /
`prepareIframeForWebAuthn` return `\x7b restore \x7d`; the combinators below
count its invocations). -/
structure RpcSettled (ε α : Type) where
  result : Except ε α
  restores : Nat
  deriving Repr

/-- `.map((result) => \x7b restore(); ...; return result \x7d)`: neverthrow's
`map` runs its callback only when the result is a success. -/
def mapRestore {ε α : Type} (s : RpcSettled ε α) : RpcSettled ε α :=
  match s.result with
  | .ok _ => ⟨s.result, s.restores + 1⟩
  | .error _ => s

/-- `.mapErr((error) => \x7b restore(); ...; return error \x7d)`: neverthrow's
`mapErr` runs its callback only when the result is a failure. -/
def mapErrRestore {ε α : Type} (s : RpcSettled ε α) : RpcSettled ε α :=
  match s.result with
  | .ok _ => s
  | .error _ => ⟨s.result, s.restores + 1⟩

namespace OneShotPay

/-- `OneShotPay.rpcCall` (`OneShotPay.ts`, lines 504–574) after its promise
settles: the combinator chain `.map(...restore...).mapErr(...restore...)`
applied to the settled result. -/
def rpcCallSettled {ε α : Type} (settled : Except ε α) : RpcSettled ε α :=
  mapErrRestore (mapRestore ⟨settled, 0⟩)

end OneShotPay

namespace WalletProxy

/-- `WalletProxy.rpcCall` (`WalletProxy.ts`, lines 282–335) after its promise
settles: the chain ends at `.map(...restore...)` — there is no `.mapErr`. -/
def rpcCallSettled {ε α : Type} (settled : Except ε α) : RpcSettled ε α :=
  mapRestore ⟨settled, 0⟩

end WalletProxy

/-- C3.  The claim says the restore callback runs exactly once per RPC call on
both the success and the failure path, in both bridge classes.  It holds of
`OneShotPay.rpcCall` (`.map` and `.mapErr` both restore), but
`WalletProxy.rpcCall` has no `.mapErr`: on the failure path its restore count
is 0, not 1 — the code does not meet the claim. -/
theorem rpcCall_restore_asymmetry :
    (∀ e : String, (WalletProxy.rpcCallSettled (ε := String) (α := String) (.error e)).restores = 0)
    ∧ (∀ a : String, (WalletProxy.rpcCallSettled (ε := String) (α := String) (.ok a)).restores = 1)
    ∧ (∀ e : String, (OneShotPay.rpcCallSettled (ε := String) (α := String) (.error e)).restores = 1)
    ∧ (∀ a : String, (OneShotPay.rpcCallSettled (ε := String) (α := String) (.ok a)).restores = 1) :=
  ⟨fun _ => rfl, fun _ => rfl, fun _ => rfl, fun _ => rfl⟩

/-- The mutable state of one bridge instance: the `rpcNonce` counter and the
`rpcCallbacks` `Map`, modelled as an association list in insertion order with
unique keys (JavaScript `Map` semantics). -/
structure BridgeState (κ : Type) where
  rpcNonce : Nat
  rpcCallbacks : List (Nat × κ)

/-- `Map.prototype.get`. -/
def jsMapGet {κ : Type} (m : List (Nat × κ)) (k : Nat) : Option κ :=
  (m.find? (fun kv => kv.1 == k)).map (·.2)

/-- `Map.prototype.set`: update in place when the key exists, append
otherwise. -/
def jsMapSet {κ : Type} (m : List (Nat × κ)) (k : Nat) (v : κ) : List (Nat × κ) :=
  match m with
  | [] => [(k, v)]
  | kv :: rest => if kv.1 == k then (k, v) :: rest else kv :: jsMapSet rest k v

/-- `Map.prototype.delete`: remove the key's entry. -/
def jsMapDelete {κ : Type} (m : List (Nat × κ)) (k : Nat) : List (Nat × κ) :=
  match m with
  | [] => []
  | kv :: rest => if kv.1 == k then rest else kv :: jsMapDelete rest k

/-- The registration step of `rpcCall` (`OneShotPay.ts`, lines 524–553;
`WalletProxy.ts`, lines 296–313): `const callbackNonce = this.rpcNonce++;
this.rpcCallbacks.set(callbackNonce, ...)`.  Returns the new state and the
nonce the call was dispatched under. -/
def rpcDispatch {κ : Type} (s : BridgeState κ) (cb : κ) : BridgeState κ × Nat :=
  (⟨s.rpcNonce + 1, jsMapSet s.rpcCallbacks s.rpcNonce cb⟩, s.rpcNonce)

/-- What the `rpcCallback` handler did with a delivered envelope. -/
inductive RpcDelivery (κ : Type) where
  | warnedIgnored
  | invoked (cb : κ)

/-- The `rpcCallback` handler (`OneShotPay.ts`, lines 115–140;
`WalletProxy.ts`, lines 146–171) on a deserialized envelope carrying
`callbackNonce = n`: look the nonce up; with no pending entry, log a warning
and return; otherwise delete the entry, then invoke the callback. -/
def handleRpcCallback {κ : Type} (s : BridgeState κ) (n : Nat) :
    BridgeState κ × RpcDelivery κ :=
  match jsMapGet s.rpcCallbacks n with
  | none => (s, .warnedIgnored)
  | some cb => (⟨s.rpcNonce, jsMapDelete s.rpcCallbacks n⟩, .invoked cb)

/-- Looking up the key just set finds the value just set. -/
theorem jsMapGet_set_self {κ : Type} (m : List (Nat × κ)) (k : Nat) (v : κ) :
    jsMapGet (jsMapSet m k v) k = some v := by
  induction m with
  | nil =>
    unfold jsMapSet jsMapGet
    rw [List.find?_cons_of_pos _ (by simp)]
    rfl
  | cons kv rest ih =>
    by_cases h : kv.1 = k
    · unfold jsMapSet
      rw [if_pos (by simpa using h)]
      unfold jsMapGet
      rw [List.find?_cons_of_pos _ (by simp)]
      rfl
    · unfold jsMapSet
      rw [if_neg (by simpa using h)]
      unfold jsMapGet at ih ⊢
      rw [List.find?_cons_of_neg _ (by simpa using h)]
      exact ih

/-- Setting a key does not change what other keys see. -/
theorem jsMapGet_set_other {κ : Type} (m : List (Nat × κ)) (k k' : Nat) (v : κ)
    (h : k' ≠ k) : jsMapGet (jsMapSet m k v) k' = jsMapGet m k' := by
  have hne : ¬ ((fun kv : Nat × κ => kv.1 == k') (k, v) = true) := by
    simp only [beq_iff_eq]
    exact fun he => h he.symm
  induction m with
  | nil =>
    unfold jsMapSet jsMapGet
    rw [@List.find?_cons_of_neg _ (fun kv : Nat × κ => kv.1 == k') (k, v) [] hne]
  | cons kv rest ih =>
    by_cases hk : kv.1 = k
    · unfold jsMapSet
      rw [if_pos (by simpa using hk)]
      unfold jsMapGet
      rw [@List.find?_cons_of_neg _ (fun q : Nat × κ => q.1 == k') (k, v) rest hne,
        @List.find?_cons_of_neg _ (fun q : Nat × κ => q.1 == k') kv rest (by
          simp only [beq_iff_eq]
          exact fun he => h (hk ▸ he).symm)]
    · unfold jsMapSet
      rw [if_neg (by simpa using hk)]
      unfold jsMapGet at ih ⊢
      by_cases hk' : kv.1 = k'
      · rw [@List.find?_cons_of_pos _ (fun q : Nat × κ => q.1 == k') kv
            (jsMapSet rest k v) (by simpa using hk'),
          @List.find?_cons_of_pos _ (fun q : Nat × κ => q.1 == k') kv rest
            (by simpa using hk')]
      · rw [@List.find?_cons_of_neg _ (fun q : Nat × κ => q.1 == k') kv
            (jsMapSet rest k v) (by simpa using hk'),
          @List.find?_cons_of_neg _ (fun q : Nat × κ => q.1 == k') kv rest
            (by simpa using hk')]
        exact ih

/-- A member of `jsMapSet m k v` is a member of `m` or the pair just set. -/
theorem jsMapSet_mem {κ : Type} (m : List (Nat × κ)) (k : Nat) (v : κ) :
    ∀ kv ∈ jsMapSet m k v, kv ∈ m ∨ kv = (k, v) := by
  induction m with
  | nil =>
    intro kv h
    unfold jsMapSet at h
    exact Or.inr (by simpa using h)
  | cons p rest ih =>
    intro kv h
    unfold jsMapSet at h
    by_cases hp : p.1 = k
    · rw [if_pos (by simpa using hp)] at h
      rcases List.mem_cons.mp h with h1 | h2
      · exact Or.inr h1
      · exact Or.inl (List.mem_cons_of_mem p h2)
    · rw [if_neg (by simpa using hp)] at h
      rcases List.mem_cons.mp h with h1 | h2
      · exact Or.inl (h1 ▸ List.mem_cons_self p rest)
      · rcases ih kv h2 with h3 | h4
        · exact Or.inl (List.mem_cons_of_mem p h3)
        · exact Or.inr h4

/-- Deleting a key that was fresh before a set undoes that set. -/
theorem jsMapDelete_set_fresh {κ : Type} (m : List (Nat × κ)) (k : Nat) (v : κ)
    (h : ∀ kv ∈ m, kv.1 ≠ k) : jsMapDelete (jsMapSet m k v) k = m := by
  induction m with
  | nil =>
    unfold jsMapSet jsMapDelete
    rw [if_pos (by simp)]
  | cons p rest ih =>
    have hp : p.1 ≠ k := h p (List.mem_cons_self p rest)
    unfold jsMapSet
    rw [if_neg (by simpa using hp)]
    unfold jsMapDelete
    rw [if_neg (by simpa using hp)]
    rw [ih (fun kv hkv => h kv (List.mem_cons_of_mem p hkv))]

/-- A key no member carries is not found. -/
theorem jsMapGet_fresh {κ : Type} (m : List (Nat × κ)) (k : Nat)
    (h : ∀ kv ∈ m, kv.1 ≠ k) : jsMapGet m k = none := by
  induction m with
  | nil => rfl
  | cons p rest ih =>
    unfold jsMapGet at ih ⊢
    rw [List.find?_cons_of_neg _ (by simpa using h p (List.mem_cons_self p rest))]
    exact ih (fun kv hkv => h kv (List.mem_cons_of_mem p hkv))

/-- C5.  Two RPC calls A then B dispatched on one bridge instance get
consecutive nonces; while both are pending, delivering the envelope carrying
B's nonce invokes only B's callback and removes only B's entry: the table
reverts to exactly what it was after A's dispatch, with A's entry still
present and B's nonce no longer pending.  The hypothesis is the instance
invariant that every pending key was issued by an earlier dispatch
(key < rpcNonce), which holds of a real instance because the nonce counter
post-increments from 0 and entries only enter the table at dispatch. -/
theorem rpc_concurrent_isolation {κ : Type} (s0 : BridgeState κ) (cbA cbB : κ)
    (hinv : ∀ kv ∈ s0.rpcCallbacks, kv.1 < s0.rpcNonce) :
    (rpcDispatch (rpcDispatch s0 cbA).1 cbB).2 = (rpcDispatch s0 cbA).2 + 1
    ∧ (handleRpcCallback (rpcDispatch (rpcDispatch s0 cbA).1 cbB).1
        (rpcDispatch (rpcDispatch s0 cbA).1 cbB).2).2 = RpcDelivery.invoked cbB
    ∧ (handleRpcCallback (rpcDispatch (rpcDispatch s0 cbA).1 cbB).1
        (rpcDispatch (rpcDispatch s0 cbA).1 cbB).2).1.rpcCallbacks
        = (rpcDispatch s0 cbA).1.rpcCallbacks
    ∧ jsMapGet (handleRpcCallback (rpcDispatch (rpcDispatch s0 cbA).1 cbB).1
        (rpcDispatch (rpcDispatch s0 cbA).1 cbB).2).1.rpcCallbacks
        (rpcDispatch s0 cbA).2 = some cbA
    ∧ jsMapGet (handleRpcCallback (rpcDispatch (rpcDispatch s0 cbA).1 cbB).1
        (rpcDispatch (rpcDispatch s0 cbA).1 cbB).2).1.rpcCallbacks
        (rpcDispatch (rpcDispatch s0 cbA).1 cbB).2 = none := by
  have hfresh : ∀ kv ∈ jsMapSet s0.rpcCallbacks s0.rpcNonce cbA,
      kv.1 ≠ s0.rpcNonce + 1 := by
    intro kv hkv
    rcases jsMapSet_mem s0.rpcCallbacks s0.rpcNonce cbA kv hkv with hm | he
    · intro hcontra
      have := hinv kv hm
      omega
    · subst he
      show s0.rpcNonce ≠ s0.rpcNonce + 1
      omega
  have hget : jsMapGet (jsMapSet (jsMapSet s0.rpcCallbacks s0.rpcNonce cbA)
      (s0.rpcNonce + 1) cbB) (s0.rpcNonce + 1) = some cbB :=
    jsMapGet_set_self _ _ _
  have hdel : jsMapDelete (jsMapSet (jsMapSet s0.rpcCallbacks s0.rpcNonce cbA)
      (s0.rpcNonce + 1) cbB) (s0.rpcNonce + 1)
      = jsMapSet s0.rpcCallbacks s0.rpcNonce cbA :=
    jsMapDelete_set_fresh _ _ _ hfresh
  have hhandle : handleRpcCallback (rpcDispatch (rpcDispatch s0 cbA).1 cbB).1
      (rpcDispatch (rpcDispatch s0 cbA).1 cbB).2
      = (⟨s0.rpcNonce + 1 + 1, jsMapSet s0.rpcCallbacks s0.rpcNonce cbA⟩,
         RpcDelivery.invoked cbB) := by
    show handleRpcCallback
        ⟨s0.rpcNonce + 1 + 1, jsMapSet (jsMapSet s0.rpcCallbacks s0.rpcNonce cbA)
          (s0.rpcNonce + 1) cbB⟩ (s0.rpcNonce + 1) = _
    unfold handleRpcCallback
    rw [hget, hdel]
  refine ⟨rfl, ?_, ?_, ?_, ?_⟩
  · rw [hhandle]
  · rw [hhandle]
    rfl
  · rw [hhandle]
    exact jsMapGet_set_self _ _ _
  · rw [hhandle]
    exact jsMapGet_fresh _ _ hfresh

/-- Witness for C5: a fresh bridge (nonce 0, empty table) dispatching "A"
then "B" and receiving B's response. -/
theorem rpc_concurrent_isolation_witness :
    (rpcDispatch (rpcDispatch (⟨0, []⟩ : BridgeState String) "A").1 "B").2
        = (rpcDispatch (⟨0, []⟩ : BridgeState String) "A").2 + 1
    ∧ (handleRpcCallback (rpcDispatch (rpcDispatch (⟨0, []⟩ : BridgeState String) "A").1 "B").1
        (rpcDispatch (rpcDispatch (⟨0, []⟩ : BridgeState String) "A").1 "B").2).2
        = RpcDelivery.invoked "B"
    ∧ (handleRpcCallback (rpcDispatch (rpcDispatch (⟨0, []⟩ : BridgeState String) "A").1 "B").1
        (rpcDispatch (rpcDispatch (⟨0, []⟩ : BridgeState String) "A").1 "B").2).1.rpcCallbacks
        = (rpcDispatch (⟨0, []⟩ : BridgeState String) "A").1.rpcCallbacks
    ∧ jsMapGet (handleRpcCallback (rpcDispatch (rpcDispatch (⟨0, []⟩ : BridgeState String) "A").1 "B").1
        (rpcDispatch (rpcDispatch (⟨0, []⟩ : BridgeState String) "A").1 "B").2).1.rpcCallbacks
        (rpcDispatch (⟨0, []⟩ : BridgeState String) "A").2 = some "A"
    ∧ jsMapGet (handleRpcCallback (rpcDispatch (rpcDispatch (⟨0, []⟩ : BridgeState String) "A").1 "B").1
        (rpcDispatch (rpcDispatch (⟨0, []⟩ : BridgeState String) "A").1 "B").2).1.rpcCallbacks
        (rpcDispatch (rpcDispatch (⟨0, []⟩ : BridgeState String) "A").1 "B").2 = none :=
  rpc_concurrent_isolation ⟨0, []⟩ "A" "B" (by simp)

/-- C6.  Delivering a response envelope whose `callbackNonce` has no pending
entry does not throw (the handler is a total function), merely logs a warning
(the `warnedIgnored` delivery) and leaves the bridge state — every pending
entry — exactly as it was: no waiting caller is resolved or rejected. -/
theorem rpc_unknown_nonce_ignored {κ : Type} (s : BridgeState κ) (n : Nat)
    (h : jsMapGet s.rpcCallbacks n = none) :
    handleRpcCallback s n = (s, RpcDelivery.warnedIgnored) := by
  unfold handleRpcCallback
  rw [h]

/-- Witness for C6: a bridge with one pending entry under nonce 3 receives an
envelope for nonce 4; the state is untouched. -/
theorem rpc_unknown_nonce_ignored_witness :
    handleRpcCallback (⟨5, [(3, "A")]⟩ : BridgeState String) 4
      = (⟨5, [(3, "A")]⟩, RpcDelivery.warnedIgnored) :=
  rpc_unknown_nonce_ignored ⟨5, [(3, "A")]⟩ 4 rfl
